import Mathlib

/-!
Verification development for the model-manager download subsystem.

The definitions below are a shallow embedding of the TypeScript sources:
  - src/lib/download/job-manager.ts   (JobManager)
  - src/lib/download/downloader.ts    (downloadFile / downloadToBuffer)
  - src/lib/download/sources/civarchive.ts
  - src/lib/download/sources/civitai.ts, huggingface.ts (URL predicates)

JavaScript numbers are modelled as rationals, JS truthiness of optional
strings / numbers / booleans is made explicit, async control flow is
modelled as a pure function of an environment that fixes the outcome of
every awaited operation (metadata fetch, byte transfer, filesystem state)
and the point, relative to the await points, at which an abort signal
fires.  Observable effects (whole-store persists, listener notifications,
filesystem writes, HTTP requests) are recorded as an event trace.
-/

namespace MM

/-! ## Job data model (src/lib/download/types.ts as used by job-manager.ts) -/

inductive Status where
  | pending | downloading | completed | failed | cancelled
deriving DecidableEq, Repr

inductive Source where
  | civarchive | civitai | huggingface
deriving DecidableEq, Repr

/-- DownloadProgress: downloaded, total, speed, percent, eta (JS numbers as ℚ). -/
structure Progress where
  downloaded : ℚ
  total : ℚ
  speed : ℚ
  percent : ℚ
  eta : ℚ
deriving DecidableEq, Repr

/-- DownloadJob, with optional fields as Option and ISO timestamps as ℕ. -/
structure Job where
  id : String
  url : String
  source : Source
  status : Status
  outputDir : Option String
  modelType : Option String
  baseModel : Option String
  modelName : Option String
  modelId : Option Nat
  versionId : Option Nat
  versionName : Option String
  downloadUrl : Option String
  fileName : Option String
  filePath : Option String
  progress : Progress
  error : Option String
  retryCount : Option Nat
  createdAt : Nat
  updatedAt : Nat
  completedAt : Option Nat
deriving DecidableEq, Repr

/-! ## JS truthiness -/

/-- JS truthiness of an optional string: undefined and the empty string are falsy. -/
def truthyS : Option String → Bool
  | none => false
  | some s => s ≠ ""

/-- JS truthiness of an optional number: undefined and 0 are falsy. -/
def truthyN : Option Nat → Bool
  | none => false
  | some n => n ≠ 0

/-- JS truthiness of an optional boolean: undefined and false are falsy. -/
def truthyB : Option Bool → Bool
  | none => false
  | some b => b

/-! ## String helpers used by the embedding -/

/-- path.join for two segments. -/
def joinPath (a b : String) : String := a ++ "/" ++ b

/-- If the pattern is a prefix of the character list, return the remainder. -/
def afterLit : List Char → List Char → Option (List Char)
  | [], s => some s
  | _ :: _, [] => none
  | p :: ps, c :: cs => if p == c then afterLit ps cs else none

/-- Scan a character list for an occurrence of a literal followed by a
position where the continuation predicate holds (regex-style search). -/
def scanFor (pat : List Char) (k : List Char → Bool) : List Char → Bool
  | [] =>
    match afterLit pat [] with
    | some r => k r
    | none => false
  | c :: cs =>
    (match afterLit pat (c :: cs) with
     | some r => k r
     | none => false) || scanFor pat k cs

/-- Substring containment (String.prototype.includes). -/
def strContains (s pat : String) : Bool :=
  scanFor pat.toList (fun _ => true) s.toList

/-- Continuation for the \d in the civarchive / civitai URL regexes. -/
def headDigit : List Char → Bool
  | [] => false
  | d :: _ => d.isDigit

/-- After the slash that ends the first segment of the huggingface URL
regex: at least one non-slash char must follow. -/
def hfSeg2 : List Char → Bool
  | [] => false
  | c :: _ => c != '/'

/-- The tail [^/]+/[^/]+ of the huggingface URL regex: first segment is
being consumed (at least one non-slash char already seen by the caller);
look for a slash followed by a non-slash char. -/
def hfSeg1Rest : List Char → Bool
  | [] => false
  | c :: cs => if c == '/' then hfSeg2 cs else hfSeg1Rest cs

/-- Continuation for the huggingface URL regex after the literal
"huggingface.co/": at least one non-slash char, a slash, then at least
one non-slash char. -/
def hfAfter : List Char → Bool
  | [] => false
  | c :: cs => c != '/' && hfSeg1Rest cs

/-- isCivArchiveUrl (sources/civarchive.ts): tests /civarchive\.com\/models\/\d+/. -/
def isCivArchiveUrl (url : String) : Bool :=
  scanFor "civarchive.com/models/".toList headDigit url.toList

/-- isCivitaiUrl (sources/civitai.ts): tests /civitai\.com\/models\/\d+/. -/
def isCivitaiUrl (url : String) : Bool :=
  scanFor "civitai.com/models/".toList headDigit url.toList

/-- isHuggingFaceUrl (sources/huggingface.ts): tests /huggingface\.co\/[^\/]+\/[^\/]+/. -/
def isHuggingFaceUrl (url : String) : Bool :=
  scanFor "huggingface.co/".toList hfAfter url.toList

/-- JobManager.detectSource. -/
def detectSource (url : String) : Option Source :=
  if isCivArchiveUrl url then some Source.civarchive
  else if isCivitaiUrl url then some Source.civitai
  else if isHuggingFaceUrl url then some Source.huggingface
  else none

/-- Split a character list at its last dot: returns the characters before
the last dot and the characters after it. -/
def extSplit : List Char → Option (List Char × List Char)
  | [] => none
  | c :: cs =>
    match extSplit cs with
    | some (pre, post) => some (c :: pre, post)
    | none => if c == '.' then some ([], cs) else none

/-- path.extname on a bare file name: from the last dot to the end, empty
when there is no dot or the only dot starts the name. -/
def extname (s : String) : String :=
  match extSplit s.toList with
  | some (pre, post) => if pre.isEmpty then "" else String.mk ('.' :: post)
  | none => ""

/-- Remove the first occurrence of the pattern (String.prototype.replace
with an empty replacement). -/
def replaceFirstChars : List Char → List Char → List Char
  | [], _ => []
  | c :: cs, pat =>
    match afterLit pat (c :: cs) with
    | some rest => rest
    | none => c :: replaceFirstChars cs pat

/-- name.replace(pat, "") for the first occurrence. -/
def replaceFirst (s pat : String) : String :=
  String.mk (replaceFirstChars s.toList pat.toList)

/-- metadata.modelName.replace(/[<>:"\/\\|?*]/g, ""): strip characters
that are illegal in filesystem paths. -/
def sanitizeModelName (s : String) : String :=
  String.mk (s.toList.filter (fun c =>
    !(c == '<' || c == '>' || c == ':' || c == '"' || c == '/' ||
      c == '\\' || c == '|' || c == '?' || c == '*')))

/-- Lower-case ASCII letter or digit. -/
def isLowerAlnum (c : Char) : Bool :=
  (97 ≤ c.toNat && c.toNat ≤ 122) || (48 ≤ c.toNat && c.toNat ≤ 57)

/-- Replace each maximal run of characters outside [a-z0-9] by a single
underscore; the flag records whether we are inside such a run. -/
def squashAux : Bool → List Char → List Char
  | _, [] => []
  | inRun, c :: cs =>
    if isLowerAlnum c then c :: squashAux false cs
    else if inRun then squashAux true cs
    else '_' :: squashAux true cs

/-- baseModel.toLowerCase().replace(/[^a-z0-9]+/g, "_"). -/
def slugify (s : String) : String :=
  String.mk (squashAux false (s.toList.map Char.toLower))

/-- TYPE_DIR_MAP (job-manager.ts). -/
def TYPE_DIR_MAP : String → Option String := fun t =>
  if t == "LORA" then some "loras"
  else if t == "Checkpoint" then some "diffusion_models"
  else if t == "VAE" then some "vae"
  else if t == "ControlNet" then some "controlnet"
  else if t == "TextualInversion" then some "embeddings"
  else if t == "Upscaler" then some "upscale_models"
  else none

/-- BASE_MODEL_DIR_MAP (job-manager.ts). -/
def BASE_MODEL_DIR_MAP : String → Option String := fun b =>
  if b == "ZImageTurbo" then some "zit"
  else if b == "Qwen" then some "qwen"
  else if b == "Qwen Image" then some "qwen"
  else if b == "Flux.2 Klein 9B" then some "qwen"
  else none

/-! ## Normalized source metadata (src/lib/download/types.ts) -/

structure SourceMirror where
  url : String
  source : String
  filename : Option String := none
  available : Bool
deriving DecidableEq, Repr

structure SourceFile where
  id : Nat
  name : String
  type : String
  sizeKB : Option ℚ := none
  sha256 : Option String := none
  downloadUrl : Option String := none
  mirrors : Option (List SourceMirror) := none
deriving DecidableEq, Repr

structure SourceImage where
  id : Nat
  url : String
deriving DecidableEq, Repr

structure SourceMetadata where
  source : Source
  modelId : Nat
  modelName : String
  modelType : String
  versionId : Nat
  versionName : String
  baseModel : Option String
  files : List SourceFile
  images : List SourceImage
deriving DecidableEq, Repr

/-! ## CivArchive resolver (sources/civarchive.ts) -/

structure CivArchiveMirror where
  url : String
  source : String
  filename : Option String := none
  deletedAt : Option String := none
  is_gated : Option Bool := none
  is_paid : Option Bool := none
deriving DecidableEq, Repr

structure CivArchiveFile where
  id : Nat
  name : String
  type : String
  sizeKB : Option ℚ := none
  sha256 : Option String := none
  mirrors : Option (List CivArchiveMirror) := none
deriving DecidableEq, Repr

structure CivArchiveVersion where
  id : Nat
  name : String
  baseModel : Option String := none
  files : List CivArchiveFile
  images : List SourceImage := []
deriving DecidableEq, Repr

structure CivArchiveModel where
  id : Nat
  name : String
  type : String
  version : CivArchiveVersion
deriving DecidableEq, Repr

/-- The civarchive fallback mirror appended for every file. -/
def civarchiveFallbackMirror (versionId : Nat) : SourceMirror :=
  { url := "https://civarchive.com/api/download/models/" ++ toString versionId,
    source := "civarchive", filename := none, available := true }

/-- getAvailableMirrors (sources/civarchive.ts): map every raw mirror to a
SourceMirror whose availability is the conjunction of not-deleted,
not-gated, not-paid, then always append the civarchive fallback mirror. -/
def getAvailableMirrors (file : CivArchiveFile) (versionId : Nat) : List SourceMirror :=
  let allMirrors := file.mirrors.getD []
  let mirrors := allMirrors.map (fun m =>
    ({ url := m.url, source := m.source, filename := m.filename,
       available := !(truthyS m.deletedAt) && !(truthyB m.is_gated) && !(truthyB m.is_paid) } : SourceMirror))
  mirrors ++ [civarchiveFallbackMirror versionId]

/-- The files list produced by fetchCivArchiveMetadata: every file gets no
direct downloadUrl and the mirror list from getAvailableMirrors. -/
def civarchiveFiles (version : CivArchiveVersion) : List SourceFile :=
  version.files.map (fun f =>
    ({ id := f.id, name := f.name, type := f.type, sizeKB := f.sizeKB, sha256 := f.sha256,
       downloadUrl := none, mirrors := some (getAvailableMirrors f version.id) } : SourceFile))

/-- The pure tail of fetchCivArchiveMetadata, applied to the page data the
network fetch extracted. -/
def fetchCivArchiveMetadataOf (model : CivArchiveModel) : SourceMetadata :=
  { source := Source.civarchive, modelId := model.id, modelName := model.name,
    modelType := model.type, versionId := model.version.id,
    versionName := model.version.name, baseModel := model.version.baseModel,
    files := civarchiveFiles model.version, images := model.version.images }

/-! ## Transport fetcher (src/lib/download/downloader.ts) -/

/-- A parsed URL, as far as the redirect logic needs it: new URL(...) with
its hostname property. The href field keeps the full text. -/
structure Url where
  hostname : String
  href : String
deriving DecidableEq, Repr

/-- Header lists model JS objects built by spread: a later binding of the
same key overrides an earlier one, so lookup takes the last match. -/
def lookupHeader : List (String × String) → String → Option String
  | [], _ => none
  | (k2, v) :: rest, k =>
    match lookupHeader rest k with
    | some v2 => some v2
    | none => if k2 == k then some v else none

/-- requestHeaders in downloadFile / downloadToBuffer:
the object spread of a User-Agent default with the caller headers. -/
def requestHeaders (headers : List (String × String)) : List (String × String) :=
  ("User-Agent", "ModelManager/1.0") :: headers

/-- What the response callback of downloadFile / downloadToBuffer does with
a response, before any body is consumed. -/
inductive FetchStep where
  /-- Follow a redirect: a recursive call with the resolved target and the
  caller headers that survive the host check. -/
  | follow (target : Url) (callerHeaders : List (String × String))
  /-- Reject with an HttpError for this status code. -/
  | fail (code : Nat)
  /-- Proceed to consuming the body. -/
  | stream
deriving DecidableEq, Repr

/-- The redirect / error branching of downloadFile (downloader.ts):
a 300-399 status with a Location header is followed, and the caller
headers are dropped unless the resolved redirect target has the same
hostname as the requested URL; a status of 400 or more rejects. The
location argument is the already-resolved new URL(location, url). -/
def downloadFileRedirectStep (url : Url) (headers : List (String × String))
    (statusCode : Nat) (location : Option Url) : FetchStep :=
  match location with
  | some target =>
    if 300 ≤ statusCode && statusCode < 400 then
      FetchStep.follow target (if url.hostname == target.hostname then headers else [])
    else if 400 ≤ statusCode then FetchStep.fail statusCode
    else FetchStep.stream
  | none =>
    if 400 ≤ statusCode then FetchStep.fail statusCode
    else FetchStep.stream

/-- The redirect / error branching of downloadToBuffer (downloader.ts),
textually the same logic as in downloadFile. -/
def downloadToBufferRedirectStep (url : Url) (headers : List (String × String))
    (statusCode : Nat) (location : Option Url) : FetchStep :=
  match location with
  | some target =>
    if 300 ≤ statusCode && statusCode < 400 then
      FetchStep.follow target (if url.hostname == target.hostname then headers else [])
    else if 400 ≤ statusCode then FetchStep.fail statusCode
    else FetchStep.stream
  | none =>
    if 400 ≤ statusCode then FetchStep.fail statusCode
    else FetchStep.stream

/-- The snapshot built by updateProgress inside downloadFile: speed from
elapsed wall-clock seconds, percent derived from downloaded and the
Content-Length, eta from the remaining bytes and the speed. -/
def updateProgressSnapshot (contentLength downloaded elapsedSeconds : ℚ) : Progress :=
  let speed : ℚ := if 0 < elapsedSeconds then downloaded / elapsedSeconds else 0
  let percent : ℚ := if 0 < contentLength then downloaded / contentLength * 100 else 0
  let eta : ℚ :=
    if 0 < speed ∧ 0 < contentLength then (contentLength - downloaded) / speed else 0
  { downloaded := downloaded, total := contentLength, speed := speed,
    percent := percent, eta := eta }

/-! ## Job manager state, events, environment (job-manager.ts) -/

/-- Observable effects of a manager run, in order of occurrence. -/
inductive Event where
  /-- saveJobs: the whole job collection handed to the on-disk store. -/
  | persist (store : List Job)
  /-- One subscribed listener invoked with a job snapshot. -/
  | notify (jobId : String) (listener : Nat) (snapshot : Job)
  /-- fs.mkdirSync. -/
  | mkdirEv (path : String)
  /-- fs.unlink of a partial file. -/
  | unlinkEv (path : String)
  /-- fs.writeFileSync. -/
  | writeFileEv (path : String)
  /-- An outgoing HTTP GET with the headers put on the wire. -/
  | requestEv (url : String) (headers : List (String × String))
deriving DecidableEq, Repr

/-- Insertion-ordered association list, the semantics of a JS Map:
set replaces in place or appends. -/
def setEntry {α : Type} (m : List (String × α)) (k : String) (v : α) : List (String × α) :=
  if m.any (fun kv => kv.1 == k) then
    m.map (fun kv => if kv.1 == k then (k, v) else kv)
  else m ++ [(k, v)]

/-- Map.get. -/
def getEntry {α : Type} (m : List (String × α)) (k : String) : Option α :=
  (m.find? (fun kv => kv.1 == k)).map (fun kv => kv.2)

/-- Map.delete. -/
def delEntry {α : Type} (m : List (String × α)) (k : String) : List (String × α) :=
  m.filter (fun kv => kv.1 != k)

/-- Array.from(this.jobs.values()). -/
def storeValues (m : List (String × Job)) : List Job := m.map (fun kv => kv.2)

/-- JobManager in-memory state: the job map and, per active download, its
set of subscribed listeners (abstract listener tokens). -/
structure Mgr where
  jobs : List (String × Job)
  active : List (String × List Nat)
deriving DecidableEq, Repr

/-- Filesystem abstraction: which paths hold a file and its size. Writes
are modelled as always succeeding (the manager swallows store errors and
the claims do not concern fs failures). -/
structure Fs where
  present : String → Bool
  sizeOf : String → ℚ

def fsWrite (fs : Fs) (p : String) (sz : ℚ) : Fs :=
  { present := fun q => if q == p then true else fs.present q,
    sizeOf := fun q => if q == p then sz else fs.sizeOf q }

def fsRemove (fs : Fs) (p : String) : Fs :=
  { present := fun q => if q == p then false else fs.present q,
    sizeOf := fun q => if q == p then 0 else fs.sizeOf q }

/-- When, relative to the await points of startDownload, the job's abort
signal fires (cancelJob only aborts the signal of an active download). -/
inductive AbortTime where
  /-- cancelJob is never invoked during the run. -/
  | never
  /-- The signal fires before the byte transfer starts (e.g. while the
  metadata fetch is in flight); downloadFile rejects on entry. -/
  | duringResolve
  /-- The signal fires while downloadFile is streaming; the partial file
  is unlinked and the promise rejects. -/
  | duringTransfer
  /-- The signal fires after downloadFile already resolved. -/
  | afterTransfer
deriving DecidableEq, Repr

/-- Environment fixing every awaited outcome of one startDownload run. -/
structure Env where
  /-- Outcome of the source resolver (fetchCivArchiveMetadata etc.). -/
  resolve : Except String SourceMetadata
  /-- getToken from the token store. -/
  tokens : String → Option String
  /-- getConfig().modelDir. -/
  modelDir : String
  /-- path.resolve. -/
  resolvePath : String → String
  /-- new URL(u).pathname, for preview image extensions. -/
  urlPathname : String → String
  /-- Filesystem state when the run starts. -/
  fs : Fs
  /-- Error of the byte transfer when it runs to its own end (none = ok). -/
  transferError : Option String
  /-- parseInt of the Content-Length header (0 when absent). -/
  contentLength : ℚ
  /-- (downloaded, elapsedSeconds) at each firing of the progress timer
  and of the final finish-handler update, in order. -/
  progressTicks : List (ℚ × ℚ)
  /-- Size of the destination file after a successful transfer. -/
  writtenSize : ℚ
  abortTime : AbortTime
  /-- Listeners subscribed to this job while it is active. -/
  listeners : List Nat
  /-- new Date().toISOString() as an abstract instant. -/
  now : Nat
  /-- Whether downloadToBuffer succeeds for a given preview image URL. -/
  imageFetchOk : String → Bool

/-- JobManager.updateJob: stamp updatedAt, store the job, persist the
whole store, then notify every listener of the active download (if any). -/
def updateJob (mgr : Mgr) (now : Nat) (job : Job) : Job × Mgr × List Event :=
  let j := { job with updatedAt := now }
  let jobs2 := setEntry mgr.jobs j.id j
  let listeners := (getEntry mgr.active j.id).getD []
  (j, { mgr with jobs := jobs2 },
    Event.persist (storeValues jobs2) :: listeners.map (fun l => Event.notify j.id l j))

/-! ## startDownload, decomposed at its await points (job-manager.ts 136-361) -/

/-- Intermediate state of one startDownload run: the job object, the
manager, the filesystem, the accumulated event trace, and the local
variables metadata / downloadUrl / destPath / extraDataDir of the source;
tStarted records whether the byte transfer was actually entered. -/
structure St where
  job : Job
  mgr : Mgr
  fs : Fs
  events : List Event
  meta : Option SourceMetadata
  downloadUrl : Option String
  destPath : Option String
  extraDataDir : Option String
  tStarted : Bool

/-- Result of a whole startDownload run. -/
structure RunResult where
  job : Job
  mgr : Mgr
  fs : Fs
  events : List Event
  tStarted : Bool

/-- The retry fast-path test: skip metadata resolution when downloadUrl,
filePath and modelId are all truthy. -/
def isRetryOf (job : Job) : Bool :=
  truthyS job.downloadUrl && truthyS job.filePath && truthyN job.modelId

/-- The synchronous prefix of startDownload, executed before its first
await: register the active download (with the listeners that subscribe to
this run), set status to downloading and updateJob. -/
def phaseStart (env : Env) (mgr0 : Mgr) (job0 : Job) : St :=
  let mgr1 : Mgr := { mgr0 with active := setEntry mgr0.active job0.id env.listeners }
  let r := updateJob mgr1 env.now { job0 with status := Status.downloading }
  { job := r.1, mgr := r.2.1, fs := env.fs, events := r.2.2,
    meta := none, downloadUrl := none, destPath := none, extraDataDir := none,
    tStarted := false }

/-- Metadata resolution: skipped on the retry fast path, otherwise the
resolver outcome either throws or populates the resolved identity. -/
def phaseResolve (env : Env) (st : St) : Except (String × St) St :=
  if isRetryOf st.job then Except.ok st
  else
    match env.resolve with
    | Except.error msg => Except.error (msg, st)
    | Except.ok m =>
      let j1 := { st.job with
        modelName := some m.modelName
        modelId := some m.modelId
        versionId := some m.versionId
        versionName := some m.versionName }
      let r := updateJob st.mgr env.now j1
      Except.ok { st with
        job := r.1
        mgr := r.2.1
        events := st.events ++ r.2.2
        meta := some m }

/-- The download-URL choice for the primary file: a direct downloadUrl if
truthy, else the first available mirror, else the previous value. -/
def selectDownloadUrl (prev : Option String) (file : SourceFile) : Option String :=
  if truthyS file.downloadUrl then file.downloadUrl
  else
    match file.mirrors with
    | some ms =>
      match ms.find? (fun m => m.available) with
      | some m => some m.url
      | none => prev
    | none => prev

/-- The output-directory computation of startDownload. The source stores
the effective model type and base model back into job.modelType and
job.baseModel before testing the explicit-outputDir branch, so that test
reads the effective values, not the user overrides. Returns the effective
model type, the effective base model and the output directory. -/
def computeOutputDir (resolvePath : String → String) (modelDir : String)
    (job : Job) (metadata : SourceMetadata) : String × Option String × String :=
  let modelNameClean := sanitizeModelName metadata.modelName
  let effectiveModelType :=
    if truthyS job.modelType then job.modelType.getD "" else metadata.modelType
  let effectiveBaseModel :=
    if truthyS job.baseModel then job.baseModel else metadata.baseModel
  let outputDir :=
    if truthyS job.outputDir && !(truthyS (some effectiveModelType)) &&
       !(truthyS effectiveBaseModel) then
      joinPath (resolvePath (job.outputDir.getD "")) modelNameClean
    else
      let typeDir := (TYPE_DIR_MAP effectiveModelType).getD "other"
      let baseModelDir :=
        match BASE_MODEL_DIR_MAP (effectiveBaseModel.getD "") with
        | some d => d
        | none =>
          match effectiveBaseModel with
          | some b => slugify b
          | none => "unknown"
      joinPath (joinPath (joinPath modelDir typeDir) baseModelDir) modelNameClean
  (effectiveModelType, effectiveBaseModel, outputDir)

/-- The destination file name embeds the model id and version id between
the base name and the extension. -/
def destFileNameOf (file : SourceFile) (modelId versionId : Nat) : String :=
  let ext := extname file.name
  let baseName := replaceFirst file.name ext
  baseName ++ "-mid_" ++ toString modelId ++ "-vid_" ++ toString versionId ++ ext

/-- URL selection, output-directory layout, auxiliary metadata directory
and destination path, for a fresh resolution; on the retry fast path only
the extraDataDir is reconstructed from the stored job fields. -/
def phaseSetup (env : Env) (st : St) : Except (String × St) St :=
  let st0 := { st with downloadUrl := st.job.downloadUrl, destPath := st.job.filePath }
  match st.meta with
  | some metadata =>
    match metadata.files.head? with
    | none => Except.error ("No files available to download", st0)
    | some file =>
      let sel := selectDownloadUrl st0.downloadUrl file
      if !(truthyS sel) then Except.error ("No download URL available", st0)
      else
        let j1 := { st0.job with downloadUrl := sel }
        let r1 := updateJob st0.mgr env.now j1
        let cod := computeOutputDir env.resolvePath env.modelDir r1.1 metadata
        let outputDir := cod.2.2
        let j2 := { r1.1 with
          modelType := some cod.1
          baseModel := cod.2.1
          outputDir := some outputDir }
        let ed := joinPath outputDir ("extra_data-vid_" ++ toString metadata.versionId)
        let destFilename := destFileNameOf file metadata.modelId metadata.versionId
        let dp := joinPath outputDir destFilename
        let j3 := { j2 with fileName := some destFilename, filePath := some dp }
        let r2 := updateJob r1.2.1 env.now j3
        Except.ok { st0 with
          job := r2.1
          mgr := r2.2.1
          events := st0.events ++ r1.2.2 ++ [Event.mkdirEv ed] ++ r2.2.2
          downloadUrl := sel
          destPath := some dp
          extraDataDir := some ed }
  | none =>
    if truthyS st0.job.outputDir && truthyN st0.job.versionId then
      let ed := joinPath (st0.job.outputDir.getD "")
        ("extra_data-vid_" ++ toString (st0.job.versionId.getD 0))
      Except.ok { st0 with extraDataDir := some ed }
    else Except.ok st0

/-- The guard before the transfer: both the download URL and the
destination path must be truthy. -/
def phaseGuard (st : St) : Except (String × St) St :=
  if !(truthyS st.downloadUrl) || !(truthyS st.destPath) then
    Except.error ("Missing download URL or destination path", st)
  else Except.ok st

/-- The auth-header attachment of startDownload: a bearer token is added
when the download URL CONTAINS the huggingface.co substring (checked
first) or the civitai.com substring, and the token store has a truthy
token for that service. -/
def authHeadersFor (tokens : String → Option String) (downloadUrl : String) :
    List (String × String) :=
  if strContains downloadUrl "huggingface.co" then
    if truthyS (tokens "huggingface") then
      [("Authorization", "Bearer " ++ (tokens "huggingface").getD "")]
    else []
  else if strContains downloadUrl "civitai.com" then
    if truthyS (tokens "civitai") then
      [("Authorization", "Bearer " ++ (tokens "civitai").getD "")]
    else []
  else []

/-- The progress snapshots the transfer emits, computed by updateProgress
from the environment's tick data. -/
def transferSnapshots (env : Env) : List Progress :=
  env.progressTicks.map (fun dt => updateProgressSnapshot env.contentLength dt.1 dt.2)

/-- The onProgress callback applied snapshot by snapshot: each one stores
the progress into the job and goes through updateJob. -/
def applyProgress (now : Nat) : Mgr → Job → List Progress → Job × Mgr × List Event
  | mgr, job, [] => (job, mgr, [])
  | mgr, job, p :: rest =>
    let r := updateJob mgr now { job with progress := p }
    let r2 := applyProgress now r.2.1 r.1 rest
    (r2.1, r2.2.1, r.2.2 ++ r2.2.2)

/-- The byte transfer: skipped when the destination file already exists
and is not known to be incomplete; otherwise downloadFile runs with the
auth headers, and its outcome is fixed by the abort time and the
environment's transfer error. An abort before entry rejects immediately;
an abort mid-stream unlinks the partial file and rejects; a transfer
error unlinks and rejects; success writes the destination file. -/
def phaseTransfer (env : Env) (st : St) : Except (String × St) St :=
  let dl := st.downloadUrl.getD ""
  let dest := st.destPath.getD ""
  let authHeaders := authHeadersFor env.tokens dl
  let fileExists := st.fs.present dest
  let existingSize : ℚ := if fileExists then st.fs.sizeOf dest else 0
  let expectedSize : ℚ := st.job.progress.total
  if !fileExists || (decide (0 < expectedSize) && decide (existingSize < expectedSize)) then
    match env.abortTime with
    | AbortTime.duringResolve =>
      Except.error ("Download cancelled", st)
    | AbortTime.duringTransfer =>
      let r := applyProgress env.now st.mgr st.job (transferSnapshots env)
      Except.error ("Download cancelled",
        { st with
          job := r.1
          mgr := r.2.1
          fs := fsRemove st.fs dest
          events := st.events ++ [Event.requestEv dl (requestHeaders authHeaders)] ++
            r.2.2 ++ [Event.unlinkEv dest]
          tStarted := true })
    | _ =>
      let r := applyProgress env.now st.mgr st.job (transferSnapshots env)
      match env.transferError with
      | some msg =>
        Except.error (msg,
          { st with
            job := r.1
            mgr := r.2.1
            fs := fsRemove st.fs dest
            events := st.events ++ [Event.requestEv dl (requestHeaders authHeaders)] ++
              r.2.2 ++ [Event.unlinkEv dest]
            tStarted := true })
      | none =>
        Except.ok
          { st with
            job := r.1
            mgr := r.2.1
            fs := fsWrite st.fs dest env.writtenSize
            events := st.events ++ [Event.requestEv dl (requestHeaders authHeaders)] ++ r.2.2
            tStarted := true }
  else Except.ok st

/-- The per-image part of the sidecar phase: write the sidecar JSON, then
fetch and write the image unless it already exists; fetch failures are
swallowed. -/
def imageLoop (env : Env) (ed : String) : Fs → List SourceImage → Fs × List Event
  | fs, [] => (fs, [])
  | fs, img :: rest =>
    let e0 := extname (env.urlPathname img.url)
    let imgExt := if e0 == "" then ".jpeg" else e0
    let imgPath := joinPath ed (toString img.id ++ imgExt)
    let sidecarPath := joinPath ed (toString img.id ++ ".json")
    let fs1 := fsWrite fs sidecarPath 0
    if !(fs1.present imgPath) then
      if env.imageFetchOk img.url then
        let r := imageLoop env ed (fsWrite fs1 imgPath 0) rest
        (r.1, [Event.writeFileEv sidecarPath,
               Event.requestEv img.url (requestHeaders []),
               Event.writeFileEv imgPath] ++ r.2)
      else
        let r := imageLoop env ed fs1 rest
        (r.1, [Event.writeFileEv sidecarPath,
               Event.requestEv img.url (requestHeaders [])] ++ r.2)
    else
      let r := imageLoop env ed fs1 rest
      (r.1, [Event.writeFileEv sidecarPath] ++ r.2)

/-- The sidecar phase, run only when a fresh resolution produced metadata
and an extraDataDir: model_dict JSON plus the preview images. -/
def phaseSidecar (env : Env) (st : St) : St :=
  match st.meta, st.extraDataDir with
  | some m, some ed =>
    let dictPath := joinPath ed
      ("model_dict-mid_" ++ toString m.modelId ++ "-vid_" ++ toString m.versionId ++ ".json")
    let r := imageLoop env ed (fsWrite st.fs dictPath 0) m.images
    { st with fs := r.1, events := st.events ++ [Event.writeFileEv dictPath] ++ r.2 }
  | _, _ => st

/-- The successful terminal transition: completed, completedAt stamped,
percent forced to 100, one final updateJob, then the finally block drops
the active download. -/
def completeFinally (env : Env) (st : St) : RunResult :=
  let j := { st.job with
    status := Status.completed
    completedAt := some env.now
    progress := { st.job.progress with percent := 100 } }
  let r := updateJob st.mgr env.now j
  { job := r.1, mgr := { r.2.1 with active := delEntry r.2.1.active st.job.id },
    fs := st.fs, events := st.events ++ r.2.2, tStarted := st.tStarted }

/-- The catch block: cancelled when the abort signal fired during the run,
failed with the thrown message otherwise; then the finally block. -/
def catchFinally (env : Env) (msg : String) (st : St) : RunResult :=
  let aborted := env.abortTime != AbortTime.never
  let j := { st.job with
    status := if aborted then Status.cancelled else Status.failed
    error := some (if aborted then "Download cancelled" else msg) }
  let r := updateJob st.mgr env.now j
  { job := r.1, mgr := { r.2.1 with active := delEntry r.2.1.active st.job.id },
    fs := st.fs, events := st.events ++ r.2.2, tStarted := st.tStarted }

/-- JobManager.startDownload as the composition of its phases. -/
def startDownload (env : Env) (mgr0 : Mgr) (job0 : Job) : RunResult :=
  let st0 := phaseStart env mgr0 job0
  match ((phaseResolve env st0).bind (phaseSetup env)).bind phaseGuard |>.bind (phaseTransfer env) with
  | Except.ok st => completeFinally env (phaseSidecar env st)
  | Except.error e => catchFinally env e.1 e.2

/-! ## The remaining manager operations -/

/-- JobManager.cancelJob: aborts the signal and returns true exactly when
the job has an active download. -/
def cancelJob (mgr : Mgr) (id : String) : Bool :=
  (getEntry mgr.active id).isSome

/-- JobManager.retryJob: only failed or cancelled jobs that are not
currently active; reset to pending, clear the error, bump the retry
counter, seed downloaded from an existing partial file, updateJob, then
re-enter startDownload. -/
def retryJob (env : Env) (mgr : Mgr) (id : String) : Option RunResult :=
  match getEntry mgr.jobs id with
  | none => none
  | some job =>
    if job.status != Status.failed && job.status != Status.cancelled then none
    else if (getEntry mgr.active id).isSome then none
    else
      let j1 := { job with
        status := Status.pending
        error := none
        retryCount := some ((job.retryCount.getD 0) + 1)
        updatedAt := env.now }
      let j2 :=
        if truthyS j1.filePath && env.fs.present (j1.filePath.getD "") then
          { j1 with progress :=
            { j1.progress with downloaded := env.fs.sizeOf (j1.filePath.getD "") } }
        else j1
      let r := updateJob mgr env.now j2
      let run := startDownload env r.2.1 r.1
      some { run with events := r.2.2 ++ run.events }

structure CreateJobOptions where
  outputDir : Option String := none
  modelType : Option String := none
  baseModel : Option String := none
deriving DecidableEq, Repr

/-- What createJob produces: the job value the caller receives at the
moment createJob returns (after startDownload's synchronous prefix ran on
the shared job object), the initial job as stored and persisted, and the
whole eventual run. -/
structure CreateResult where
  returnedJob : Job
  initialJob : Job
  run : RunResult

def initialProgress : Progress :=
  { downloaded := 0, total := 0, speed := 0, percent := 0, eta := 0 }

/-- JobManager.createJob: reject unsupported URLs, build the initial
pending job under a fresh id, store and persist it, then start the
download; the unawaited startDownload call executes synchronously up to
its first await before createJob returns the (shared, already mutated)
job object. -/
def createJob (env : Env) (mgr : Mgr) (freshId : String) (url : String)
    (opts : CreateJobOptions) : Except String CreateResult :=
  match detectSource url with
  | none => Except.error "Unsupported URL. Supported: civarchive, civitai, huggingface"
  | some source =>
    let job : Job := {
      id := freshId, url := url, source := source, status := Status.pending,
      outputDir := opts.outputDir, modelType := opts.modelType, baseModel := opts.baseModel,
      modelName := none, modelId := none, versionId := none, versionName := none,
      downloadUrl := none, fileName := none, filePath := none,
      progress := initialProgress, error := none, retryCount := none,
      createdAt := env.now, updatedAt := env.now, completedAt := none }
    let jobs1 := setEntry mgr.jobs freshId job
    let mgr1 : Mgr := { mgr with jobs := jobs1 }
    let preEvents := [Event.persist (storeValues jobs1)]
    let run := startDownload env mgr1 job
    let returned := (phaseStart env mgr1 job).job
    Except.ok { returnedJob := returned, initialJob := job,
                run := { run with events := preEvents ++ run.events } }

/-- The load-time reconciliation of JobManager.loadJobs: a job found in a
non-terminal state is forced to failed with a fixed message. -/
def reviveJob (j : Job) : Job :=
  if j.status == Status.downloading || j.status == Status.pending then
    { j with status := Status.failed, error := some "Server restarted during download" }
  else j

/-- JobManager.loadJobs applied to the parsed jobs array of the persisted
store: each job is revived and inserted into the job map in order. -/
def loadJobs (persisted : List Job) : List (String × Job) :=
  persisted.foldl (fun m j => setEntry m j.id (reviveJob j)) []

/-! ## Trace observations used by the claims -/

/-- The job snapshots a subscribed listener observes during a trace. -/
def observedSnapshots (events : List Event) : List Job :=
  events.filterMap (fun e =>
    match e with
    | Event.notify _ _ j => some j
    | _ => none)

/-- Every listener notification in the trace is preceded by a whole-store
persist that already contains the notified snapshot; seen accumulates the
stores persisted so far. -/
def persistBeforeNotify : List (List Job) → List Event → Prop
  | _, [] => True
  | seen, Event.persist s :: es => persistBeforeNotify (s :: seen) es
  | seen, Event.notify _ _ j :: es =>
      (∃ s, s ∈ seen ∧ j ∈ s) ∧ persistBeforeNotify seen es
  | seen, _ :: es => persistBeforeNotify seen es

/-- The derived-percent property the spec claims of every observed
progress snapshot. -/
def derivedPercentP (p : Progress) : Prop :=
  (p.total = 0 → p.percent = 0) ∧ (0 < p.total → p.percent = p.downloaded / p.total * 100)

instance (p : Progress) : Decidable (derivedPercentP p) := by
  unfold derivedPercentP
  infer_instance

/-- Drop everything up to and including the scheme separator "://". -/
def afterScheme : List Char → List Char
  | [] => []
  | ':' :: '/' :: '/' :: r => r
  | _ :: r => afterScheme r

/-- The hostname of a URL as the spec means it: the authority component
between the scheme separator and the next delimiter. Used only to state
claims about hosts; job-manager.ts itself never parses the host. -/
def hostnameOf (url : String) : String :=
  String.mk ((afterScheme url.toList).takeWhile
    (fun c => !(c == '/' || c == '?' || c == '#' || c == ':')))

/-- persist-before-notify under every possible history of already-persisted
stores: the form in which the property composes over concatenation. -/
def GoodAny (es : List Event) : Prop :=
  ∀ seen, persistBeforeNotify seen es

/-- The placement fields of a job whose single assignment per resolution
the spec asserts. -/
def jobFieldsPreserved (a b : Job) : Prop :=
  b.downloadUrl = a.downloadUrl ∧ b.filePath = a.filePath ∧ b.outputDir = a.outputDir

/-! ## Concrete fixtures used by witnesses and counterexamples -/

def exMeta : SourceMetadata :=
  { source := Source.civarchive, modelId := 7, modelName := "M", modelType := "LORA",
    versionId := 9, versionName := "v1", baseModel := some "Qwen",
    files := [{ id := 1, name := "m.safetensors", type := "Model",
                sizeKB := none, sha256 := none, downloadUrl := none,
                mirrors := some [civarchiveFallbackMirror 9] }],
    images := [] }

def exEnv : Env :=
  { resolve := Except.ok exMeta, tokens := fun _ => none, modelDir := "/models",
    resolvePath := id, urlPathname := id,
    fs := { present := fun _ => false, sizeOf := fun _ => 0 },
    transferError := none, contentLength := 0, progressTicks := [],
    writtenSize := 1000, abortTime := AbortTime.never, listeners := [0], now := 5,
    imageFetchOk := fun _ => true }

def exJob : Job :=
  { id := "j1", url := "https://civarchive.com/models/123", source := Source.civarchive,
    status := Status.pending, outputDir := none, modelType := none, baseModel := none,
    modelName := none, modelId := none, versionId := none, versionName := none,
    downloadUrl := none, fileName := none, filePath := none,
    progress := initialProgress, error := none, retryCount := none,
    createdAt := 5, updatedAt := 5, completedAt := none }

def exMgr : Mgr := { jobs := [("j1", exJob)], active := [] }

def exMgr0 : Mgr := { jobs := [], active := [] }

def exRetryJob : Job :=
  { exJob with
    status := Status.failed
    error := some "HTTP 500"
    downloadUrl := some "https://civarchive.com/api/download/models/9"
    filePath := some "/models/loras/qwen/M/m-mid_7-vid_9.safetensors"
    outputDir := some "/models/loras/qwen/M"
    modelId := some 7
    versionId := some 9 }

def exRetryMgr : Mgr := { jobs := [("j1", exRetryJob)], active := [] }

def exCAFile : CivArchiveFile :=
  { id := 1, name := "m.safetensors", type := "Model", sizeKB := none, sha256 := none,
    mirrors := some [{ url := "https://gone.example/m", source := "civitai",
                       filename := none, deletedAt := some "2024-01-01",
                       is_gated := none, is_paid := none }] }

def exCAVersion : CivArchiveVersion :=
  { id := 9, name := "v1", baseModel := some "Qwen", files := [exCAFile], images := [] }

def exCAMapped : SourceFile :=
  { id := 1, name := "m.safetensors", type := "Model", sizeKB := none, sha256 := none,
    downloadUrl := none, mirrors := some (getAvailableMirrors exCAFile exCAVersion.id) }

/-- A raw civarchive mirror that is available (not deleted, gated or paid)
but carries an empty url string. -/
def exCAMirrorEmpty : CivArchiveMirror :=
  { url := "", source := "civitai", filename := none, deletedAt := none,
    is_gated := none, is_paid := none }

def exCAFileEmpty : CivArchiveFile :=
  { id := 1, name := "m.safetensors", type := "Model", sizeKB := none, sha256 := none,
    mirrors := some [exCAMirrorEmpty] }

def exCAVersionEmpty : CivArchiveVersion :=
  { id := 9, name := "v1", baseModel := some "Qwen", files := [exCAFileEmpty], images := [] }

/-- A metadata result whose files come from the civarchive resolver applied
to exCAVersionEmpty: the first available mirror has an empty url. -/
def exMetaEmpty : SourceMetadata :=
  { source := Source.civarchive, modelId := 7, modelName := "M", modelType := "LORA",
    versionId := 9, versionName := "v1", baseModel := some "Qwen",
    files := civarchiveFiles exCAVersionEmpty, images := [] }

def exEnvEmpty : Env := { exEnv with resolve := Except.ok exMetaEmpty }

/-- The file of exMetaEmpty as the resolver maps it. -/
def exCAMappedEmpty : SourceFile :=
  { id := 1, name := "m.safetensors", type := "Model", sizeKB := none, sha256 := none,
    downloadUrl := none,
    mirrors := some (getAvailableMirrors exCAFileEmpty exCAVersionEmpty.id) }

/-- The single file of exMeta, as a named value. -/
def exFile : SourceFile :=
  { id := 1, name := "m.safetensors", type := "Model", sizeKB := none, sha256 := none,
    downloadUrl := none, mirrors := some [civarchiveFallbackMirror 9] }

/-- exJob with an explicit user outputDir override. -/
def exJobC3 : Job := { exJob with outputDir := some "/custom" }

/-! # Theorems -/

/-! ## Association-list (JS Map) lemmas -/

theorem getEntry_nil {α : Type} (k : String) : getEntry ([] : List (String × α)) k = none := rfl

theorem getEntry_cons {α : Type} (a : String × α) (m : List (String × α)) (k : String) :
    getEntry (a :: m) k = if a.1 == k then some a.2 else getEntry m k := by
  by_cases h : a.1 == k
  · have hf : List.find? (fun kv => kv.1 == k) (a :: m) = some a :=
      List.find?_cons_of_pos _ h
    unfold getEntry
    rw [hf]
    simp [h]
  · have hf : List.find? (fun kv => kv.1 == k) (a :: m) = List.find? (fun kv => kv.1 == k) m :=
      List.find?_cons_of_neg _ (by simpa using h)
    unfold getEntry
    rw [hf]
    simp [h]

/-- Shorthand for the in-place replacement setEntry performs on a hit. -/
def replEntry {α : Type} (k : String) (v : α) : (String × α) → (String × α) :=
  fun kv => if kv.1 == k then (k, v) else kv

theorem setEntry_eq_map {α : Type} (m : List (String × α)) (k : String) (v : α)
    (h : m.any (fun kv => kv.1 == k) = true) :
    setEntry m k v = m.map (replEntry k v) := by
  unfold setEntry replEntry
  simp [h]

theorem setEntry_eq_append {α : Type} (m : List (String × α)) (k : String) (v : α)
    (h : m.any (fun kv => kv.1 == k) = false) :
    setEntry m k v = m ++ [(k, v)] := by
  unfold setEntry
  simp [h]

theorem getEntry_replMap_ne {α : Type} (m : List (String × α)) (k k2 : String) (v : α)
    (h : k2 ≠ k) : getEntry (m.map (replEntry k v)) k2 = getEntry m k2 := by
  induction m with
  | nil => rfl
  | cons b m ih =>
    by_cases hbk : b.1 == k
    · have hb : replEntry k v b = (k, v) := by simp [replEntry, hbk]
      have hb2 : (b.1 == k2) = false := by
        have hb1 : b.1 = k := by simpa using hbk
        simp [hb1, Ne.symm h]
      rw [List.map_cons, hb, getEntry_cons, getEntry_cons, hb2]
      simp [show (k == k2) = false by simp [Ne.symm h], ih]
    · have hb : replEntry k v b = b := by simp [replEntry, hbk]
      rw [List.map_cons, hb, getEntry_cons, getEntry_cons]
      by_cases hb2 : b.1 == k2
      · simp [hb2]
      · simp [hb2, ih]

theorem getEntry_append_single_ne {α : Type} (m : List (String × α)) (k k2 : String) (v : α)
    (h : k2 ≠ k) : getEntry (m ++ [(k, v)]) k2 = getEntry m k2 := by
  induction m with
  | nil =>
    rw [List.nil_append, getEntry_cons]
    simp [show (k == k2) = false by simp [Ne.symm h], getEntry_nil]
  | cons b m ih =>
    rw [List.cons_append, getEntry_cons, getEntry_cons]
    by_cases hb2 : b.1 == k2
    · simp [hb2]
    · simp [hb2, ih]

theorem getEntry_replMap_self {α : Type} (m : List (String × α)) (k : String) (v : α)
    (h : m.any (fun kv => kv.1 == k) = true) :
    getEntry (m.map (replEntry k v)) k = some v := by
  induction m with
  | nil => simp at h
  | cons b m ih =>
    by_cases hbk : b.1 == k
    · have hb : replEntry k v b = (k, v) := by simp [replEntry, hbk]
      rw [List.map_cons, hb, getEntry_cons]
      simp
    · have hb : replEntry k v b = b := by simp [replEntry, hbk]
      have hm : m.any (fun kv => kv.1 == k) = true := by
        simp only [List.any_cons, hbk, Bool.false_or] at h
        exact h
      rw [List.map_cons, hb, getEntry_cons]
      simp [hbk, ih hm]

theorem getEntry_append_single_self {α : Type} (m : List (String × α)) (k : String) (v : α)
    (h : m.any (fun kv => kv.1 == k) = false) :
    getEntry (m ++ [(k, v)]) k = some v := by
  induction m with
  | nil =>
    rw [List.nil_append, getEntry_cons]
    simp
  | cons b m ih =>
    have hbk : (b.1 == k) = false := by
      by_contra hc
      simp only [Bool.not_eq_false] at hc
      simp [List.any_cons, hc] at h
    have hm : m.any (fun kv => kv.1 == k) = false := by
      by_contra hc
      simp only [Bool.not_eq_false] at hc
      simp [List.any_cons, hc] at h
    rw [List.cons_append, getEntry_cons, hbk]
    simpa using ih hm

theorem getEntry_setEntry_self {α : Type} (m : List (String × α)) (k : String) (v : α) :
    getEntry (setEntry m k v) k = some v := by
  by_cases h : m.any (fun kv => kv.1 == k)
  · rw [setEntry_eq_map m k v h]
    exact getEntry_replMap_self m k v h
  · have h2 : m.any (fun kv => kv.1 == k) = false := by
      simp only [Bool.not_eq_true] at h
      exact h
    rw [setEntry_eq_append m k v h2]
    exact getEntry_append_single_self m k v h2

theorem getEntry_setEntry_ne {α : Type} (m : List (String × α)) (k k2 : String) (v : α)
    (h : k2 ≠ k) : getEntry (setEntry m k v) k2 = getEntry m k2 := by
  by_cases hm : m.any (fun kv => kv.1 == k)
  · rw [setEntry_eq_map m k v hm]
    exact getEntry_replMap_ne m k k2 v h
  · have h2 : m.any (fun kv => kv.1 == k) = false := by
      simp only [Bool.not_eq_true] at hm
      exact hm
    rw [setEntry_eq_append m k v h2]
    exact getEntry_append_single_ne m k k2 v h

theorem mem_values_replMap (m : List (String × Job)) (k : String) (v : Job)
    (hm : m.any (fun kv => kv.1 == k) = true) :
    v ∈ (m.map (replEntry k v)).map (fun kv => kv.2) := by
  induction m with
  | nil => simp at hm
  | cons b m ih =>
    by_cases hbk : b.1 == k
    · have hb : replEntry k v b = (k, v) := by simp [replEntry, hbk]
      rw [List.map_cons, hb, List.map_cons]
      exact List.mem_cons_self _ _
    · have hb : replEntry k v b = b := by simp [replEntry, hbk]
      have hm2 : m.any (fun kv => kv.1 == k) = true := by
        simp only [List.any_cons, hbk, Bool.false_or] at hm
        exact hm
      rw [List.map_cons, hb, List.map_cons]
      exact List.mem_cons_of_mem _ (ih hm2)

theorem mem_storeValues_setEntry (m : List (String × Job)) (k : String) (v : Job) :
    v ∈ storeValues (setEntry m k v) := by
  by_cases hm : m.any (fun kv => kv.1 == k)
  · rw [setEntry_eq_map m k v hm]
    exact mem_values_replMap m k v hm
  · have h2 : m.any (fun kv => kv.1 == k) = false := by
      simp only [Bool.not_eq_true] at hm
      exact hm
    rw [setEntry_eq_append m k v h2]
    simp [storeValues]

/-! ## Trace machinery: snapshots and persist-before-notify -/

theorem observedSnapshots_append (a b : List Event) :
    observedSnapshots (a ++ b) = observedSnapshots a ++ observedSnapshots b := by
  simp [observedSnapshots, List.filterMap_append]

theorem observedSnapshots_notifyMap (L : List Nat) (id : String) (j : Job) :
    observedSnapshots (L.map (fun l => Event.notify id l j)) = L.map (fun _ => j) := by
  induction L with
  | nil => rfl
  | cons a L ih =>
    simp only [List.map_cons, observedSnapshots, List.filterMap_cons] at ih ⊢
    rw [ih]

theorem observedSnapshots_updateJob (mgr : Mgr) (now : Nat) (job : Job) :
    observedSnapshots (updateJob mgr now job).2.2 =
      ((getEntry mgr.active job.id).getD []).map (fun _ => { job with updatedAt := now }) := by
  have h := observedSnapshots_notifyMap ((getEntry mgr.active job.id).getD [])
    job.id { job with updatedAt := now }
  simp only [updateJob, observedSnapshots, List.filterMap_cons]
  simpa [observedSnapshots] using h

theorem mem_observed_updateJob {snap : Job} {mgr : Mgr} {now : Nat} {job : Job}
    (h : snap ∈ observedSnapshots (updateJob mgr now job).2.2) :
    snap = { job with updatedAt := now } := by
  rw [observedSnapshots_updateJob] at h
  obtain ⟨l, _, rfl⟩ := List.mem_map.mp h
  rfl

theorem pbn_mono {seen seen2 : List (List Job)} (hsub : ∀ s ∈ seen, s ∈ seen2) :
    ∀ es, persistBeforeNotify seen es → persistBeforeNotify seen2 es := by
  intro es
  induction es generalizing seen seen2 with
  | nil => intro _; trivial
  | cons e es ih =>
    intro h
    cases e with
    | persist s =>
      simp only [persistBeforeNotify] at h ⊢
      exact ih (by
        intro x hx
        rcases List.mem_cons.mp hx with h1 | h2
        · exact h1 ▸ List.mem_cons_self _ _
        · exact List.mem_cons_of_mem _ (hsub x h2)) h
    | notify id l j =>
      simp only [persistBeforeNotify] at h ⊢
      obtain ⟨⟨s, hs, hj⟩, hrest⟩ := h
      exact ⟨⟨s, hsub s hs, hj⟩, ih hsub hrest⟩
    | mkdirEv p =>
      simp only [persistBeforeNotify] at h ⊢
      exact ih hsub h
    | unlinkEv p =>
      simp only [persistBeforeNotify] at h ⊢
      exact ih hsub h
    | writeFileEv p =>
      simp only [persistBeforeNotify] at h ⊢
      exact ih hsub h
    | requestEv u hs =>
      simp only [persistBeforeNotify] at h ⊢
      exact ih hsub h

theorem pbn_append {seen : List (List Job)} {a b : List Event}
    (ha : persistBeforeNotify seen a) (hb : GoodAny b) :
    persistBeforeNotify seen (a ++ b) := by
  induction a generalizing seen with
  | nil => simpa using hb seen
  | cons e a ih =>
    cases e with
    | persist s =>
      simp only [List.cons_append, persistBeforeNotify] at ha ⊢
      exact ih ha
    | notify id l j =>
      simp only [List.cons_append, persistBeforeNotify] at ha ⊢
      exact ⟨ha.1, ih ha.2⟩
    | mkdirEv p =>
      simp only [List.cons_append, persistBeforeNotify] at ha ⊢
      exact ih ha
    | unlinkEv p =>
      simp only [List.cons_append, persistBeforeNotify] at ha ⊢
      exact ih ha
    | writeFileEv p =>
      simp only [List.cons_append, persistBeforeNotify] at ha ⊢
      exact ih ha
    | requestEv u hs =>
      simp only [List.cons_append, persistBeforeNotify] at ha ⊢
      exact ih ha

theorem goodAny_append {a b : List Event} (ha : GoodAny a) (hb : GoodAny b) :
    GoodAny (a ++ b) :=
  fun seen => pbn_append (ha seen) hb

theorem goodAny_of_no_notify : ∀ es : List Event, observedSnapshots es = [] → GoodAny es := by
  intro es
  induction es with
  | nil => intro _ _; trivial
  | cons e es ih =>
    intro h seen
    cases e with
    | persist s =>
      simp only [observedSnapshots, List.filterMap_cons] at h
      exact (ih h) (s :: seen)
    | notify id l j =>
      simp [observedSnapshots, List.filterMap_cons] at h
    | mkdirEv p =>
      simp only [observedSnapshots, List.filterMap_cons] at h
      exact (ih h) seen
    | unlinkEv p =>
      simp only [observedSnapshots, List.filterMap_cons] at h
      exact (ih h) seen
    | writeFileEv p =>
      simp only [observedSnapshots, List.filterMap_cons] at h
      exact (ih h) seen
    | requestEv u hs =>
      simp only [observedSnapshots, List.filterMap_cons] at h
      exact (ih h) seen

theorem pbn_map_notify {seen : List (List Job)} {j : Job} (hj : ∃ s, s ∈ seen ∧ j ∈ s)
    (id : String) : ∀ L : List Nat,
    persistBeforeNotify seen (L.map (fun l => Event.notify id l j)) := by
  intro L
  induction L with
  | nil => trivial
  | cons l L ih =>
    simp only [List.map_cons, persistBeforeNotify]
    exact ⟨hj, ih⟩

theorem goodAny_updateJob (mgr : Mgr) (now : Nat) (job : Job) :
    GoodAny (updateJob mgr now job).2.2 := by
  intro seen
  simp only [updateJob, persistBeforeNotify]
  apply pbn_map_notify
  exact ⟨_, List.mem_cons_self _ _, mem_storeValues_setEntry _ _ _⟩

theorem requestEv_not_mem_updateJob (mgr : Mgr) (now : Nat) (job : Job) (u : String)
    (hs : List (String × String)) : Event.requestEv u hs ∉ (updateJob mgr now job).2.2 := by
  intro hmem
  simp only [updateJob] at hmem
  rcases List.mem_cons.mp hmem with h1 | h1
  · cases h1
  · rcases List.mem_map.mp h1 with ⟨l, _, h2⟩
    cases h2

theorem fsRemove_present_self (fs : Fs) (p : String) :
    (fsRemove fs p).present p = false := by
  simp [fsRemove]

/-! ## jobFieldsPreserved helpers -/

theorem jobFieldsPreserved_refl (a : Job) : jobFieldsPreserved a a := ⟨rfl, rfl, rfl⟩

theorem jobFieldsPreserved_trans {a b c : Job}
    (h1 : jobFieldsPreserved a b) (h2 : jobFieldsPreserved b c) : jobFieldsPreserved a c :=
  ⟨h2.1.trans h1.1, h2.2.1.trans h1.2.1, h2.2.2.trans h1.2.2⟩

/-! ## applyProgress lemmas -/

theorem applyProgress_spec (now : Nat) : ∀ (snaps : List Progress) (mgr : Mgr) (job : Job),
    jobFieldsPreserved job (applyProgress now mgr job snaps).1 ∧
    (applyProgress now mgr job snaps).1.status = job.status ∧
    ((applyProgress now mgr job snaps).1.progress = job.progress ∨
      (applyProgress now mgr job snaps).1.progress ∈ snaps) ∧
    (applyProgress now mgr job snaps).2.1.active = mgr.active ∧
    (∀ s ∈ observedSnapshots (applyProgress now mgr job snaps).2.2,
      s.progress ∈ snaps ∧ jobFieldsPreserved job s ∧ s.status = job.status) ∧
    (∀ u hs2, Event.requestEv u hs2 ∉ (applyProgress now mgr job snaps).2.2) ∧
    GoodAny (applyProgress now mgr job snaps).2.2 := by
  intro snaps
  induction snaps with
  | nil =>
    intro mgr job
    refine ⟨jobFieldsPreserved_refl _, rfl, Or.inl rfl, rfl, ?_, ?_, ?_⟩
    · intro s hs
      simp [applyProgress, observedSnapshots] at hs
    · intro u hs2 hmem
      simp [applyProgress] at hmem
    · intro seen
      trivial
  | cons p rest ih =>
    intro mgr job
    have hstep : jobFieldsPreserved job
        (updateJob mgr now { job with progress := p }).1 := ⟨rfl, rfl, rfl⟩
    obtain ⟨ihF, ihSt, ihP, ihA, ihS, ihR, ihG⟩ :=
      ih (updateJob mgr now { job with progress := p }).2.1
         (updateJob mgr now { job with progress := p }).1
    refine ⟨?_, ?_, ?_, ?_, ?_, ?_, ?_⟩
    · exact jobFieldsPreserved_trans hstep (by simpa [applyProgress] using ihF)
    · simp only [applyProgress]
      rw [ihSt]
      rfl
    · simp only [applyProgress]
      rcases ihP with h | h
      · right
        rw [h]
        simp [updateJob]
      · right
        exact List.mem_cons_of_mem _ h
    · simp only [applyProgress]
      rw [ihA]
      rfl
    · intro s hs
      simp only [applyProgress] at hs
      rw [observedSnapshots_append] at hs
      rcases List.mem_append.mp hs with h | h
      · have := mem_observed_updateJob h
        subst this
        exact ⟨List.mem_cons_self _ _, ⟨rfl, rfl, rfl⟩, rfl⟩
      · obtain ⟨hmem, hfields, hst⟩ := ihS s h
        exact ⟨List.mem_cons_of_mem _ hmem, jobFieldsPreserved_trans hstep hfields,
          hst.trans rfl⟩
    · intro u hs2 hmem
      simp only [applyProgress] at hmem
      rcases List.mem_append.mp hmem with h | h
      · rcases List.mem_cons.mp h with h1 | h1
        · cases h1
        · rcases List.mem_map.mp h1 with ⟨l, _, h2⟩
          cases h2
      · exact ihR u hs2 h
    · simp only [applyProgress]
      exact goodAny_append (goodAny_updateJob _ _ _) ihG

/-! ## The transfer snapshots satisfy the derived-percent property -/

theorem derived_updateProgressSnapshot (cl d e : ℚ) :
    derivedPercentP (updateProgressSnapshot cl d e) := by
  unfold updateProgressSnapshot derivedPercentP
  refine ⟨?_, ?_⟩
  · intro h
    simp only at h ⊢
    rw [h]
    simp
  · intro h
    simp only at h ⊢
    rw [if_pos h]

theorem derived_transferSnapshots (env : Env) :
    ∀ p ∈ transferSnapshots env, derivedPercentP p := by
  intro p hp
  obtain ⟨dt, _, rfl⟩ := List.mem_map.mp hp
  exact derived_updateProgressSnapshot _ _ _

/-! ## Per-phase specifications -/

/-- What one phase's appended events may contain, relative to the job at
phase entry and at phase exit. -/
def SnapOk (jin jout : Job) (s : Job) : Prop :=
  (s.downloadUrl = jin.downloadUrl ∨ s.downloadUrl = jout.downloadUrl) ∧
  (s.filePath = jin.filePath ∨ s.filePath = jout.filePath) ∧
  (s.outputDir = jin.outputDir ∨ s.outputDir = jout.outputDir) ∧
  (s.progress = jin.progress ∨ derivedPercentP s.progress ∨
    (s.status = Status.completed ∧ s.progress.percent = 100))

theorem phaseResolve_ok (env : Env) (st st2 : St)
    (h : phaseResolve env st = Except.ok st2) :
    jobFieldsPreserved st.job st2.job ∧ st2.job.progress = st.job.progress ∧
    st2.job.status = st.job.status ∧
    st2.fs = st.fs ∧ st2.mgr.active = st.mgr.active ∧ st2.tStarted = st.tStarted ∧
    st2.destPath = st.destPath ∧ st2.downloadUrl = st.downloadUrl ∧
    st2.extraDataDir = st.extraDataDir ∧
    ∃ es, st2.events = st.events ++ es ∧ GoodAny es ∧
      ∀ s ∈ observedSnapshots es,
        jobFieldsPreserved st.job s ∧ s.progress = st.job.progress ∧
        s.status = st.job.status := by
  unfold phaseResolve at h
  by_cases hr : isRetryOf st.job
  · rw [if_pos hr] at h
    cases h
    refine ⟨jobFieldsPreserved_refl _, rfl, rfl, rfl, rfl, rfl, rfl, rfl, rfl,
      [], by simp, ?_, ?_⟩
    · intro seen
      trivial
    · intro s hs
      simp [observedSnapshots] at hs
  · rw [if_neg hr] at h
    cases hres : env.resolve with
    | error msg => rw [hres] at h; cases h
    | ok m =>
      rw [hres] at h
      cases h
      refine ⟨⟨rfl, rfl, rfl⟩, rfl, rfl, rfl, by simp [updateJob], rfl, rfl, rfl, rfl,
        (updateJob st.mgr env.now _).2.2, rfl, goodAny_updateJob _ _ _, ?_⟩
      intro s hs
      have := mem_observed_updateJob hs
      subst this
      exact ⟨⟨rfl, rfl, rfl⟩, rfl, rfl⟩

theorem phaseResolve_error (env : Env) (st st2 : St) (msg : String)
    (h : phaseResolve env st = Except.error (msg, st2)) : st2 = st := by
  unfold phaseResolve at h
  by_cases hr : isRetryOf st.job
  · rw [if_pos hr] at h
    cases h
  · rw [if_neg hr] at h
    cases hres : env.resolve with
    | error m =>
      rw [hres] at h
      cases h
      rfl
    | ok m => rw [hres] at h; cases h

theorem phaseResolve_retry (env : Env) (st : St) (hr : isRetryOf st.job = true) :
    phaseResolve env st = Except.ok st := by
  unfold phaseResolve
  rw [if_pos hr]

theorem phaseResolve_meta (env : Env) (st st2 : St)
    (h : phaseResolve env st = Except.ok st2) (hm : st.meta = none) :
    st2.meta = none ∨ ∃ m, env.resolve = Except.ok m ∧ st2.meta = some m := by
  unfold phaseResolve at h
  by_cases hr : isRetryOf st.job
  · rw [if_pos hr] at h
    cases h
    exact Or.inl hm
  · rw [if_neg hr] at h
    cases hres : env.resolve with
    | error msg => rw [hres] at h; cases h
    | ok m =>
      rw [hres] at h
      cases h
      exact Or.inr ⟨m, rfl, rfl⟩

theorem append3_assoc {a : Type} (e x y z : List a) :
    ((e ++ x) ++ y) ++ z = e ++ (x ++ (y ++ z)) := by
  simp

theorem phaseSetup_meta_none (env : Env) (st : St) (hm : st.meta = none) :
    ∃ st2, phaseSetup env st = Except.ok st2 ∧ st2.job = st.job ∧
      st2.events = st.events ∧ st2.mgr = st.mgr ∧ st2.fs = st.fs ∧
      st2.downloadUrl = st.job.downloadUrl ∧ st2.destPath = st.job.filePath ∧
      st2.meta = none ∧ st2.tStarted = st.tStarted := by
  unfold phaseSetup
  rw [hm]
  dsimp only
  by_cases hc : (truthyS st.job.outputDir && truthyN st.job.versionId) = true
  · rw [if_pos hc]
    exact ⟨_, rfl, rfl, rfl, rfl, rfl, rfl, rfl, rfl, rfl⟩
  · rw [if_neg hc]
    exact ⟨_, rfl, rfl, rfl, rfl, rfl, rfl, rfl, rfl, rfl⟩

theorem phaseSetup_error (env : Env) (st st2 : St) (msg : String)
    (h : phaseSetup env st = Except.error (msg, st2)) :
    st2.job = st.job ∧ st2.events = st.events ∧ st2.fs = st.fs ∧
    st2.mgr = st.mgr ∧ st2.tStarted = st.tStarted := by
  unfold phaseSetup at h
  cases hm : st.meta with
  | none =>
    rw [hm] at h
    dsimp only at h
    by_cases hc : (truthyS st.job.outputDir && truthyN st.job.versionId) = true
    · rw [if_pos hc] at h
      cases h
    · rw [if_neg hc] at h
      cases h
  | some metadata =>
    rw [hm] at h
    dsimp only at h
    cases hf : metadata.files.head? with
    | none =>
      rw [hf] at h
      cases h
      exact ⟨rfl, rfl, rfl, rfl, rfl⟩
    | some file =>
      rw [hf] at h
      by_cases hsel : truthyS (selectDownloadUrl st.job.downloadUrl file) = true
      · simp only [hsel, Bool.not_true, if_neg] at h
        simp at h
      · have hsel2 : truthyS (selectDownloadUrl st.job.downloadUrl file) = false := by
          simp only [Bool.not_eq_true] at hsel
          exact hsel
        simp only [hsel2, Bool.not_false, if_pos] at h
        cases h
        exact ⟨rfl, rfl, rfl, rfl, rfl⟩

theorem phaseSetup_ok (env : Env) (st st2 : St)
    (h : phaseSetup env st = Except.ok st2) :
    st2.job.progress = st.job.progress ∧ st2.job.status = st.job.status ∧
    st2.destPath = st2.job.filePath ∧ st2.downloadUrl = st2.job.downloadUrl ∧
    st2.fs = st.fs ∧ st2.mgr.active = st.mgr.active ∧ st2.tStarted = st.tStarted ∧
    st2.meta = st.meta ∧
    ∃ es, st2.events = st.events ++ es ∧ GoodAny es ∧
      ∀ s ∈ observedSnapshots es, SnapOk st.job st2.job s ∧ s.status = st.job.status := by
  unfold phaseSetup at h
  cases hm : st.meta with
  | none =>
    rw [hm] at h
    dsimp only at h
    by_cases hc : (truthyS st.job.outputDir && truthyN st.job.versionId) = true
    · rw [if_pos hc] at h
      cases h
      refine ⟨rfl, rfl, rfl, rfl, rfl, rfl, rfl, rfl, [], by simp, ?_, ?_⟩
      · intro seen; trivial
      · intro s hs; simp [observedSnapshots] at hs
    · rw [if_neg hc] at h
      cases h
      refine ⟨rfl, rfl, rfl, rfl, rfl, rfl, rfl, rfl, [], by simp, ?_, ?_⟩
      · intro seen; trivial
      · intro s hs; simp [observedSnapshots] at hs
  | some metadata =>
    rw [hm] at h
    dsimp only at h
    cases hf : metadata.files.head? with
    | none =>
      rw [hf] at h
      cases h
    | some file =>
      rw [hf] at h
      by_cases hsel : truthyS (selectDownloadUrl st.job.downloadUrl file) = true
      · simp only [hsel, Bool.not_true] at h
        rw [if_neg (by simp)] at h
        cases h
        refine ⟨rfl, rfl, rfl, rfl, rfl, by simp [updateJob], rfl, rfl, ?_⟩
        refine ⟨_, append3_assoc _ _ _ _, ?_, ?_⟩
        · refine goodAny_append (goodAny_updateJob _ _ _) ?_
          refine goodAny_append (goodAny_of_no_notify _ rfl) (goodAny_updateJob _ _ _)
        · intro s hs
          rw [observedSnapshots_append, observedSnapshots_append] at hs
          rcases List.mem_append.mp hs with h1 | h2
          · have := mem_observed_updateJob h1
            subst this
            refine ⟨⟨Or.inr rfl, Or.inl rfl, Or.inl rfl, Or.inl rfl⟩, rfl⟩
          · rcases List.mem_append.mp h2 with h3 | h4
            · simp [observedSnapshots] at h3
            · have := mem_observed_updateJob h4
              subst this
              refine ⟨⟨Or.inr rfl, Or.inr rfl, Or.inr rfl, Or.inl rfl⟩, rfl⟩
      · have hsel2 : truthyS (selectDownloadUrl st.job.downloadUrl file) = false := by
          simp only [Bool.not_eq_true] at hsel
          exact hsel
        simp only [hsel2, Bool.not_false, if_pos] at h
        cases h

theorem phaseGuard_ok (st st2 : St) (h : phaseGuard st = Except.ok st2) :
    st2 = st ∧ truthyS st.downloadUrl = true ∧ truthyS st.destPath = true := by
  unfold phaseGuard at h
  by_cases hc : (!truthyS st.downloadUrl || !truthyS st.destPath) = true
  · rw [if_pos hc] at h
    cases h
  · rw [if_neg hc] at h
    cases h
    simp only [Bool.or_eq_true, Bool.not_eq_true', not_or] at hc
    push_neg at hc
    refine ⟨rfl, ?_, ?_⟩
    · have := hc.1
      simp only [Bool.not_eq_true] at this ⊢
      cases hdl : truthyS st.downloadUrl
      · exact absurd hdl this
      · rfl
    · have := hc.2
      cases hdp : truthyS st.destPath
      · exact absurd hdp this
      · rfl

theorem phaseGuard_error (st st2 : St) (msg : String)
    (h : phaseGuard st = Except.error (msg, st2)) : st2 = st := by
  unfold phaseGuard at h
  by_cases hc : (!truthyS st.downloadUrl || !truthyS st.destPath) = true
  · rw [if_pos hc] at h
    cases h
    rfl
  · rw [if_neg hc] at h
    cases h

theorem phaseTransfer_ok (env : Env) (st st2 : St)
    (h : phaseTransfer env st = Except.ok st2) :
    jobFieldsPreserved st.job st2.job ∧ st2.job.status = st.job.status ∧
    (st2.job.progress = st.job.progress ∨ derivedPercentP st2.job.progress) ∧
    st2.meta = st.meta ∧ st2.downloadUrl = st.downloadUrl ∧ st2.destPath = st.destPath ∧
    st2.extraDataDir = st.extraDataDir ∧ st2.mgr.active = st.mgr.active ∧
    (env.abortTime = AbortTime.duringTransfer → st2.tStarted = st.tStarted) ∧
    ∃ es, st2.events = st.events ++ es ∧ GoodAny es ∧
      (∀ s ∈ observedSnapshots es, jobFieldsPreserved st.job s ∧ s.status = st.job.status ∧
        (s.progress = st.job.progress ∨ derivedPercentP s.progress)) ∧
      (∀ u hs2, Event.requestEv u hs2 ∈ es → u = st.downloadUrl.getD "") := by
  unfold phaseTransfer at h
  dsimp only at h
  obtain ⟨apF, apSt, apP, apA, apS, apR, apG⟩ :=
    applyProgress_spec env.now (transferSnapshots env) st.mgr st.job
  by_cases hskip : (!st.fs.present (st.destPath.getD "") ||
      (decide (0 < st.job.progress.total) &&
        decide ((if st.fs.present (st.destPath.getD "") then st.fs.sizeOf (st.destPath.getD "") else 0) <
          st.job.progress.total))) = true
  · rw [if_pos hskip] at h
    cases hab : env.abortTime with
    | duringResolve => rw [hab] at h; cases h
    | duringTransfer => rw [hab] at h; cases h
    | never =>
      rw [hab] at h
      cases het : env.transferError with
      | some msg => rw [het] at h; cases h
      | none =>
        rw [het] at h
        cases h
        refine ⟨apF, apSt, ?_, rfl, rfl, rfl, rfl, apA, ?_, ?_⟩
        · rcases apP with h1 | h1
          · exact Or.inl h1
          · exact Or.inr (derived_transferSnapshots env _ h1)
        · intro hc
          cases hc
        · refine ⟨_, List.append_assoc _ _ _, ?_, ?_, ?_⟩
          · exact goodAny_append (goodAny_of_no_notify _ rfl) apG
          · intro s hs
            rw [observedSnapshots_append] at hs
            rcases List.mem_append.mp hs with h1 | h1
            · simp [observedSnapshots] at h1
            · obtain ⟨hmem, hfields, hst⟩ := apS s h1
              exact ⟨hfields, hst, Or.inr (derived_transferSnapshots env _ hmem)⟩
          · intro u hs2 hmem
            rcases List.mem_append.mp hmem with h1 | h1
            · simp at h1
              exact h1.1
            · exact absurd h1 (apR u hs2)
    | afterTransfer =>
      rw [hab] at h
      cases het : env.transferError with
      | some msg => rw [het] at h; cases h
      | none =>
        rw [het] at h
        cases h
        refine ⟨apF, apSt, ?_, rfl, rfl, rfl, rfl, apA, ?_, ?_⟩
        · rcases apP with h1 | h1
          · exact Or.inl h1
          · exact Or.inr (derived_transferSnapshots env _ h1)
        · intro hc
          cases hc
        · refine ⟨_, List.append_assoc _ _ _, ?_, ?_, ?_⟩
          · exact goodAny_append (goodAny_of_no_notify _ rfl) apG
          · intro s hs
            rw [observedSnapshots_append] at hs
            rcases List.mem_append.mp hs with h1 | h1
            · simp [observedSnapshots] at h1
            · obtain ⟨hmem, hfields, hst⟩ := apS s h1
              exact ⟨hfields, hst, Or.inr (derived_transferSnapshots env _ hmem)⟩
          · intro u hs2 hmem
            rcases List.mem_append.mp hmem with h1 | h1
            · simp at h1
              exact h1.1
            · exact absurd h1 (apR u hs2)
  · rw [if_neg hskip] at h
    cases h
    refine ⟨jobFieldsPreserved_refl _, rfl, Or.inl rfl, rfl, rfl, rfl, rfl, rfl,
      fun _ => rfl, [], by simp, ?_, ?_, ?_⟩
    · intro seen; trivial
    · intro s hs; simp [observedSnapshots] at hs
    · intro u hs2 hmem; simp at hmem

theorem phaseTransfer_error (env : Env) (st st2 : St) (msg : String)
    (h : phaseTransfer env st = Except.error (msg, st2)) :
    jobFieldsPreserved st.job st2.job ∧ st2.job.status = st.job.status ∧
    (st2.job.progress = st.job.progress ∨ derivedPercentP st2.job.progress) ∧
    st2.meta = st.meta ∧ st2.downloadUrl = st.downloadUrl ∧ st2.destPath = st.destPath ∧
    st2.extraDataDir = st.extraDataDir ∧ st2.mgr.active = st.mgr.active ∧
    ((env.abortTime = AbortTime.duringResolve ∧ st2 = st) ∨
      (st2.tStarted = true ∧ st2.fs = fsRemove st.fs (st.destPath.getD ""))) ∧
    ∃ es, st2.events = st.events ++ es ∧ GoodAny es ∧
      (∀ s ∈ observedSnapshots es, jobFieldsPreserved st.job s ∧ s.status = st.job.status ∧
        (s.progress = st.job.progress ∨ derivedPercentP s.progress)) ∧
      (∀ u hs2, Event.requestEv u hs2 ∈ es → u = st.downloadUrl.getD "") := by
  unfold phaseTransfer at h
  dsimp only at h
  obtain ⟨apF, apSt, apP, apA, apS, apR, apG⟩ :=
    applyProgress_spec env.now (transferSnapshots env) st.mgr st.job
  by_cases hskip : (!st.fs.present (st.destPath.getD "") ||
      (decide (0 < st.job.progress.total) &&
        decide ((if st.fs.present (st.destPath.getD "") then st.fs.sizeOf (st.destPath.getD "") else 0) <
          st.job.progress.total))) = true
  · rw [if_pos hskip] at h
    cases hab : env.abortTime with
    | duringResolve =>
      rw [hab] at h
      cases h
      refine ⟨jobFieldsPreserved_refl _, rfl, Or.inl rfl, rfl, rfl, rfl, rfl, rfl,
        Or.inl ⟨rfl, rfl⟩, [], by simp, ?_, ?_, ?_⟩
      · intro seen; trivial
      · intro s hs; simp [observedSnapshots] at hs
      · intro u hs2 hmem; simp at hmem
    | duringTransfer =>
      rw [hab] at h
      cases h
      refine ⟨apF, apSt, ?_, rfl, rfl, rfl, rfl, apA, Or.inr ⟨rfl, rfl⟩, ?_⟩
      · rcases apP with h1 | h1
        · exact Or.inl h1
        · exact Or.inr (derived_transferSnapshots env _ h1)
      · refine ⟨_, append3_assoc _ _ _ _, ?_, ?_, ?_⟩
        · refine goodAny_append (goodAny_of_no_notify _ rfl) ?_
          exact goodAny_append apG (goodAny_of_no_notify _ rfl)
        · intro s hs
          rw [observedSnapshots_append, observedSnapshots_append] at hs
          rcases List.mem_append.mp hs with h1 | h1
          · simp [observedSnapshots] at h1
          · rcases List.mem_append.mp h1 with h2 | h2
            · obtain ⟨hmem, hfields, hst⟩ := apS s h2
              exact ⟨hfields, hst, Or.inr (derived_transferSnapshots env _ hmem)⟩
            · simp [observedSnapshots] at h2
        · intro u hs2 hmem
          rcases List.mem_append.mp hmem with h1 | h1
          · simp at h1
            exact h1.1
          · rcases List.mem_append.mp h1 with h2 | h2
            · exact absurd h2 (apR u hs2)
            · simp at h2
    | never =>
      rw [hab] at h
      cases het : env.transferError with
      | none => rw [het] at h; cases h
      | some m2 =>
        rw [het] at h
        cases h
        refine ⟨apF, apSt, ?_, rfl, rfl, rfl, rfl, apA, Or.inr ⟨rfl, rfl⟩, ?_⟩
        · rcases apP with h1 | h1
          · exact Or.inl h1
          · exact Or.inr (derived_transferSnapshots env _ h1)
        · refine ⟨_, append3_assoc _ _ _ _, ?_, ?_, ?_⟩
          · refine goodAny_append (goodAny_of_no_notify _ rfl) ?_
            exact goodAny_append apG (goodAny_of_no_notify _ rfl)
          · intro s hs
            rw [observedSnapshots_append, observedSnapshots_append] at hs
            rcases List.mem_append.mp hs with h1 | h1
            · simp [observedSnapshots] at h1
            · rcases List.mem_append.mp h1 with h2 | h2
              · obtain ⟨hmem, hfields, hst⟩ := apS s h2
                exact ⟨hfields, hst, Or.inr (derived_transferSnapshots env _ hmem)⟩
              · simp [observedSnapshots] at h2
          · intro u hs2 hmem
            rcases List.mem_append.mp hmem with h1 | h1
            · simp at h1
              exact h1.1
            · rcases List.mem_append.mp h1 with h2 | h2
              · exact absurd h2 (apR u hs2)
              · simp at h2
    | afterTransfer =>
      rw [hab] at h
      cases het : env.transferError with
      | none => rw [het] at h; cases h
      | some m2 =>
        rw [het] at h
        cases h
        refine ⟨apF, apSt, ?_, rfl, rfl, rfl, rfl, apA, Or.inr ⟨rfl, rfl⟩, ?_⟩
        · rcases apP with h1 | h1
          · exact Or.inl h1
          · exact Or.inr (derived_transferSnapshots env _ h1)
        · refine ⟨_, append3_assoc _ _ _ _, ?_, ?_, ?_⟩
          · refine goodAny_append (goodAny_of_no_notify _ rfl) ?_
            exact goodAny_append apG (goodAny_of_no_notify _ rfl)
          · intro s hs
            rw [observedSnapshots_append, observedSnapshots_append] at hs
            rcases List.mem_append.mp hs with h1 | h1
            · simp [observedSnapshots] at h1
            · rcases List.mem_append.mp h1 with h2 | h2
              · obtain ⟨hmem, hfields, hst⟩ := apS s h2
                exact ⟨hfields, hst, Or.inr (derived_transferSnapshots env _ hmem)⟩
              · simp [observedSnapshots] at h2
          · intro u hs2 hmem
            rcases List.mem_append.mp hmem with h1 | h1
            · simp at h1
              exact h1.1
            · rcases List.mem_append.mp h1 with h2 | h2
              · exact absurd h2 (apR u hs2)
              · simp at h2
  · rw [if_neg hskip] at h
    cases h

theorem observedSnapshots_imageLoop (env : Env) (ed : String) :
    ∀ (imgs : List SourceImage) (fs : Fs),
    observedSnapshots (imageLoop env ed fs imgs).2 = [] := by
  intro imgs
  induction imgs with
  | nil => intro fs; rfl
  | cons img rest ih =>
    intro fs
    unfold imageLoop
    dsimp only
    by_cases h1 : (!(fsWrite fs (joinPath ed (toString img.id ++ ".json")) 0).present
        (joinPath ed (toString img.id ++
          (if extname (env.urlPathname img.url) == "" then ".jpeg"
           else extname (env.urlPathname img.url))))) = true
    · rw [if_pos h1]
      by_cases h2 : env.imageFetchOk img.url = true
      · rw [if_pos h2]
        simp only [observedSnapshots, List.filterMap_append, List.filterMap_cons]
        simp only [observedSnapshots] at ih
        simp [ih]
      · rw [if_neg h2]
        simp only [observedSnapshots, List.filterMap_append, List.filterMap_cons]
        simp only [observedSnapshots] at ih
        simp [ih]
    · rw [if_neg h1]
      simp only [observedSnapshots, List.filterMap_append, List.filterMap_cons]
      simp only [observedSnapshots] at ih
      simp [ih]

theorem phaseSidecar_spec (env : Env) (st : St) :
    (phaseSidecar env st).job = st.job ∧ (phaseSidecar env st).mgr = st.mgr ∧
    (phaseSidecar env st).tStarted = st.tStarted ∧
    (phaseSidecar env st).downloadUrl = st.downloadUrl ∧
    (phaseSidecar env st).destPath = st.destPath ∧
    ∃ es, (phaseSidecar env st).events = st.events ++ es ∧
      observedSnapshots es = [] ∧ (st.meta = none → es = []) := by
  unfold phaseSidecar
  cases hm : st.meta with
  | none =>
    cases he : st.extraDataDir with
    | none =>
      refine ⟨rfl, rfl, rfl, rfl, rfl, [], by simp, rfl, fun _ => rfl⟩
    | some ed =>
      refine ⟨rfl, rfl, rfl, rfl, rfl, [], by simp, rfl, fun _ => rfl⟩
  | some m =>
    cases he : st.extraDataDir with
    | none =>
      refine ⟨rfl, rfl, rfl, rfl, rfl, [], by simp, rfl, fun _ => rfl⟩
    | some ed =>
      dsimp only
      refine ⟨rfl, rfl, rfl, rfl, rfl, _, List.append_assoc _ _ _, ?_, ?_⟩
      · rw [observedSnapshots_append]
        rw [observedSnapshots_imageLoop]
        simp [observedSnapshots]
      · intro hc
        cases hc

theorem completeFinally_spec (env : Env) (st : St) :
    (completeFinally env st).job.status = Status.completed ∧
    (completeFinally env st).job.progress = { st.job.progress with percent := 100 } ∧
    jobFieldsPreserved st.job (completeFinally env st).job ∧
    (completeFinally env st).fs = st.fs ∧
    (completeFinally env st).tStarted = st.tStarted ∧
    ∃ es, (completeFinally env st).events = st.events ++ es ∧ GoodAny es ∧
      (∀ s ∈ observedSnapshots es, s.status = Status.completed ∧
        s.progress = { st.job.progress with percent := 100 } ∧
        jobFieldsPreserved st.job s) ∧
      (∀ u hs2, Event.requestEv u hs2 ∉ es) := by
  unfold completeFinally
  dsimp only
  refine ⟨rfl, rfl, ⟨rfl, rfl, rfl⟩, rfl, rfl, _, rfl, goodAny_updateJob _ _ _, ?_, ?_⟩
  · intro s hs
    have := mem_observed_updateJob hs
    subst this
    exact ⟨rfl, rfl, ⟨rfl, rfl, rfl⟩⟩
  · intro u hs2
    exact requestEv_not_mem_updateJob _ _ _ _ _

theorem catchFinally_spec (env : Env) (msg : String) (st : St) :
    (catchFinally env msg st).job.status =
      (if env.abortTime != AbortTime.never then Status.cancelled else Status.failed) ∧
    (catchFinally env msg st).job.error =
      some (if env.abortTime != AbortTime.never then "Download cancelled" else msg) ∧
    (catchFinally env msg st).job.progress = st.job.progress ∧
    jobFieldsPreserved st.job (catchFinally env msg st).job ∧
    (catchFinally env msg st).fs = st.fs ∧
    (catchFinally env msg st).tStarted = st.tStarted ∧
    ∃ es, (catchFinally env msg st).events = st.events ++ es ∧ GoodAny es ∧
      (∀ s ∈ observedSnapshots es, s.progress = st.job.progress ∧
        jobFieldsPreserved st.job s ∧ s.status ≠ Status.completed) ∧
      (∀ u hs2, Event.requestEv u hs2 ∉ es) := by
  unfold catchFinally
  dsimp only
  refine ⟨rfl, rfl, rfl, ⟨rfl, rfl, rfl⟩, rfl, rfl, _, rfl, goodAny_updateJob _ _ _, ?_, ?_⟩
  · intro s hs
    have := mem_observed_updateJob hs
    subst this
    refine ⟨rfl, ⟨rfl, rfl, rfl⟩, ?_⟩
    by_cases hab : (env.abortTime != AbortTime.never) = true
    · simp only [hab, if_true]
      intro hc
      cases hc
    · simp only [hab, if_false]
      intro hc
      cases hc
  · intro u hs2
    exact requestEv_not_mem_updateJob _ _ _ _ _

theorem phaseStart_spec (env : Env) (mgr0 : Mgr) (job0 : Job) :
    (phaseStart env mgr0 job0).job =
      { job0 with status := Status.downloading, updatedAt := env.now } ∧
    (phaseStart env mgr0 job0).fs = env.fs ∧
    (phaseStart env mgr0 job0).meta = none ∧
    (phaseStart env mgr0 job0).tStarted = false ∧
    GoodAny (phaseStart env mgr0 job0).events ∧
    (∀ s ∈ observedSnapshots (phaseStart env mgr0 job0).events,
      s = { job0 with status := Status.downloading, updatedAt := env.now }) ∧
    (∀ u hs, Event.requestEv u hs ∉ (phaseStart env mgr0 job0).events) := by
  refine ⟨rfl, rfl, rfl, rfl, goodAny_updateJob _ _ _, ?_, ?_⟩
  · intro s hs
    exact mem_observed_updateJob hs
  · intro u hs
    exact requestEv_not_mem_updateJob _ _ _ _ _

/-! ## Run-level composition -/

/-- The snapshot property of a whole startDownload run: every placement
field a listener observes is either the field at run entry or the field in
the final job, and every observed progress is derived, the entry progress,
or the forced percent-100 completed snapshot. -/
theorem startDownload_trace_spec (env : Env) (mgr0 : Mgr) (job0 : Job) :
    GoodAny (startDownload env mgr0 job0).events ∧
    ∀ s ∈ observedSnapshots (startDownload env mgr0 job0).events,
      (s.downloadUrl = job0.downloadUrl ∨
        s.downloadUrl = (startDownload env mgr0 job0).job.downloadUrl) ∧
      (s.filePath = job0.filePath ∨
        s.filePath = (startDownload env mgr0 job0).job.filePath) ∧
      (s.outputDir = job0.outputDir ∨
        s.outputDir = (startDownload env mgr0 job0).job.outputDir) ∧
      (derivedPercentP s.progress ∨ s.progress = job0.progress ∨
        (s.status = Status.completed ∧ s.progress.percent = 100)) := by
  obtain ⟨hSj, hSfs, hSm, hSt, hSG, hSobs, hSreq⟩ := phaseStart_spec env mgr0 job0
  cases h1 : phaseResolve env (phaseStart env mgr0 job0) with
  | error e =>
    obtain ⟨msg, st'⟩ := e
    have hst' := phaseResolve_error env _ _ _ h1
    subst hst'
    have hrun : startDownload env mgr0 job0 =
        catchFinally env msg (phaseStart env mgr0 job0) := by
      unfold startDownload
      dsimp only
      rw [h1]
      rfl
    obtain ⟨_, _, _, hCF, _, _, esC, hCE, hCG, hCobs, hCreq⟩ :=
      catchFinally_spec env msg (phaseStart env mgr0 job0)
    rw [hrun, hCE]
    constructor
    · exact goodAny_append hSG hCG
    · intro s hs
      rw [observedSnapshots_append] at hs
      rcases List.mem_append.mp hs with hA | hB
      · have := hSobs s hA
        subst this
        rw [hSj] at *
        exact ⟨Or.inl rfl, Or.inl rfl, Or.inl rfl, Or.inr (Or.inl rfl)⟩
      · obtain ⟨hp, hf, _⟩ := hCobs s hB
        rw [hSj] at hp hf
        exact ⟨Or.inl hf.1, Or.inl hf.2.1, Or.inl hf.2.2, Or.inr (Or.inl hp)⟩
  | ok st1 =>
    obtain ⟨hRF, hRp, hRst, hRfs, hRac, hRts, hRdp, hRdu, hRed, es1, hE1, hG1, hObs1⟩ :=
      phaseResolve_ok env _ _ h1
    cases h2 : phaseSetup env st1 with
    | error e =>
      obtain ⟨msg, st'⟩ := e
      obtain ⟨hj2, he2, hfs2, hmgr2, hts2⟩ := phaseSetup_error env _ _ _ h2
      have hrun : startDownload env mgr0 job0 = catchFinally env msg st' := by
        unfold startDownload
        dsimp only
        rw [h1]
        simp only [Except.bind, h2]
      obtain ⟨_, _, _, hCF, _, _, esC, hCE, hCG, hCobs, hCreq⟩ := catchFinally_spec env msg st'
      rw [hrun, hCE, he2, hE1]
      constructor
      · exact goodAny_append (goodAny_append hSG hG1) hCG
      · intro s hs
        rw [observedSnapshots_append, observedSnapshots_append] at hs
        rcases List.mem_append.mp hs with hAB | hC
        · rcases List.mem_append.mp hAB with hA | hB
          · have := hSobs s hA
            subst this
            rw [hSj] at *
            exact ⟨Or.inl rfl, Or.inl rfl, Or.inl rfl, Or.inr (Or.inl rfl)⟩
          · obtain ⟨hf, hp, _⟩ := hObs1 s hB
            rw [hSj] at hp hf
            exact ⟨Or.inl hf.1, Or.inl hf.2.1, Or.inl hf.2.2, Or.inr (Or.inl hp)⟩
        · obtain ⟨hp, hf, _⟩ := hCobs s hC
          rw [hj2] at hp hf
          have hfu : s.downloadUrl = job0.downloadUrl := by
            rw [hf.1, hRF.1, hSj]
          have hfp : s.filePath = job0.filePath := by
            rw [hf.2.1, hRF.2.1, hSj]
          have hfo : s.outputDir = job0.outputDir := by
            rw [hf.2.2, hRF.2.2, hSj]
          have hpp : s.progress = job0.progress := by
            rw [hp, hRp, hSj]
          exact ⟨Or.inl hfu, Or.inl hfp, Or.inl hfo, Or.inr (Or.inl hpp)⟩
    | ok st2 =>
      obtain ⟨hTp, hTst, hTdp, hTdu, hTfs, hTac, hTts, hTm, es2, hE2, hG2, hObs2⟩ :=
        phaseSetup_ok env _ _ h2
      cases h3 : phaseGuard st2 with
      | error e =>
        obtain ⟨msg, st'⟩ := e
        have hst' := phaseGuard_error _ _ _ h3
        subst hst'
        have hrun : startDownload env mgr0 job0 = catchFinally env msg st' := by
          unfold startDownload
          dsimp only
          rw [h1]
          simp only [Except.bind, h2, h3]
        obtain ⟨_, _, _, hCF, _, _, esC, hCE, hCG, hCobs, hCreq⟩ := catchFinally_spec env msg st'
        rw [hrun, hCE, hE2, hE1]
        constructor
        · exact goodAny_append (goodAny_append (goodAny_append hSG hG1) hG2) hCG
        · intro s hs
          rw [observedSnapshots_append, observedSnapshots_append,
            observedSnapshots_append] at hs
          rcases List.mem_append.mp hs with hABC | hD
          · rcases List.mem_append.mp hABC with hAB | hC
            · rcases List.mem_append.mp hAB with hA | hB
              · have := hSobs s hA
                subst this
                rw [hSj] at *
                exact ⟨Or.inl rfl, Or.inl rfl, Or.inl rfl, Or.inr (Or.inl rfl)⟩
              · obtain ⟨hf, hp, _⟩ := hObs1 s hB
                rw [hSj] at hp hf
                exact ⟨Or.inl hf.1, Or.inl hf.2.1, Or.inl hf.2.2, Or.inr (Or.inl hp)⟩
            · obtain ⟨hSnap, _⟩ := hObs2 s hC
              obtain ⟨hu, hp2, ho, hprog⟩ := hSnap
              refine ⟨?_, ?_, ?_, ?_⟩
              · rcases hu with h | h
                · exact Or.inl (by rw [h, hRF.1, hSj])
                · exact Or.inr (by rw [h]; exact ((catchFinally_spec env msg st').2.2.2.1).1.symm)
              · rcases hp2 with h | h
                · exact Or.inl (by rw [h, hRF.2.1, hSj])
                · exact Or.inr (by rw [h]; exact ((catchFinally_spec env msg st').2.2.2.1).2.1.symm)
              · rcases ho with h | h
                · exact Or.inl (by rw [h, hRF.2.2, hSj])
                · exact Or.inr (by rw [h]; exact ((catchFinally_spec env msg st').2.2.2.1).2.2.symm)
              · rcases hprog with h | h | h
                · exact Or.inr (Or.inl (by rw [h, hRp, hSj]))
                · exact Or.inl h
                · exact Or.inr (Or.inr h)
          · obtain ⟨hp, hf, _⟩ := hCobs s hD
            have hpp : s.progress = job0.progress := by
              rw [hp, hTp, hRp, hSj]
            refine ⟨Or.inr ?_, Or.inr ?_, Or.inr ?_, Or.inr (Or.inl hpp)⟩
            · rw [hf.1]
              exact ((catchFinally_spec env msg st').2.2.2.1).1.symm
            · rw [hf.2.1]
              exact ((catchFinally_spec env msg st').2.2.2.1).2.1.symm
            · rw [hf.2.2]
              exact ((catchFinally_spec env msg st').2.2.2.1).2.2.symm
      | ok st3 =>
        obtain ⟨hst3, hGdu, hGdp⟩ := phaseGuard_ok _ _ h3
        subst hst3
        cases h4 : phaseTransfer env st3 with
        | error e =>
          obtain ⟨msg, st'⟩ := e
          obtain ⟨hXF, hXst, hXp, hXm, hXdu, hXdp, hXed, hXac, hXfs,
            es3, hE3, hG3, hObs3, hReq3⟩ := phaseTransfer_error env _ _ _ h4
          have hrun : startDownload env mgr0 job0 = catchFinally env msg st' := by
            unfold startDownload
            dsimp only
            rw [h1]
            simp only [Except.bind, h2, h3, h4]
          obtain ⟨_, _, _, hCF, _, _, esC, hCE, hCG, hCobs, hCreq⟩ := catchFinally_spec env msg st'
          rw [hrun, hCE, hE3, hE2, hE1]
          constructor
          · exact goodAny_append
              (goodAny_append (goodAny_append (goodAny_append hSG hG1) hG2) hG3) hCG
          · intro s hs
            rw [observedSnapshots_append, observedSnapshots_append,
              observedSnapshots_append, observedSnapshots_append] at hs
            have hru : (catchFinally env msg st').job.downloadUrl = st3.job.downloadUrl := by
              rw [((catchFinally_spec env msg st').2.2.2.1).1, hXF.1]
            have hrp : (catchFinally env msg st').job.filePath = st3.job.filePath := by
              rw [((catchFinally_spec env msg st').2.2.2.1).2.1, hXF.2.1]
            have hro : (catchFinally env msg st').job.outputDir = st3.job.outputDir := by
              rw [((catchFinally_spec env msg st').2.2.2.1).2.2, hXF.2.2]
            rcases List.mem_append.mp hs with hABCD | hE
            · rcases List.mem_append.mp hABCD with hABC | hD
              · rcases List.mem_append.mp hABC with hAB | hC
                · rcases List.mem_append.mp hAB with hA | hB
                  · have := hSobs s hA
                    subst this
                    rw [hSj] at *
                    exact ⟨Or.inl rfl, Or.inl rfl, Or.inl rfl, Or.inr (Or.inl rfl)⟩
                  · obtain ⟨hf, hp, _⟩ := hObs1 s hB
                    rw [hSj] at hp hf
                    exact ⟨Or.inl hf.1, Or.inl hf.2.1, Or.inl hf.2.2, Or.inr (Or.inl hp)⟩
                · obtain ⟨hSnap, _⟩ := hObs2 s hC
                  obtain ⟨hu, hp2, ho, hprog⟩ := hSnap
                  refine ⟨?_, ?_, ?_, ?_⟩
                  · rcases hu with h | h
                    · exact Or.inl (by rw [h, hRF.1, hSj])
                    · exact Or.inr (by rw [h, hru])
                  · rcases hp2 with h | h
                    · exact Or.inl (by rw [h, hRF.2.1, hSj])
                    · exact Or.inr (by rw [h, hrp])
                  · rcases ho with h | h
                    · exact Or.inl (by rw [h, hRF.2.2, hSj])
                    · exact Or.inr (by rw [h, hro])
                  · rcases hprog with h | h | h
                    · exact Or.inr (Or.inl (by rw [h, hRp, hSj]))
                    · exact Or.inl h
                    · exact Or.inr (Or.inr h)
              · obtain ⟨hf, _, hprog⟩ := hObs3 s hD
                refine ⟨Or.inr (by rw [hf.1, hru]), Or.inr (by rw [hf.2.1, hrp]),
                  Or.inr (by rw [hf.2.2, hro]), ?_⟩
                rcases hprog with h | h
                · exact Or.inr (Or.inl (by rw [h, hTp, hRp, hSj]))
                · exact Or.inl h
            · obtain ⟨hp, hf, _⟩ := hCobs s hE
              refine ⟨Or.inr ?_, Or.inr ?_, Or.inr ?_, ?_⟩
              · rw [hf.1]
                exact ((catchFinally_spec env msg st').2.2.2.1).1.symm
              · rw [hf.2.1]
                exact ((catchFinally_spec env msg st').2.2.2.1).2.1.symm
              · rw [hf.2.2]
                exact ((catchFinally_spec env msg st').2.2.2.1).2.2.symm
              · rw [hp]
                rcases hXp with h | h
                · exact Or.inr (Or.inl (by rw [h, hTp, hRp, hSj]))
                · exact Or.inl h
        | ok st4 =>
          obtain ⟨hXF, hXst, hXp, hXm, hXdu, hXdp, hXed, hXac, hXts,
            es3, hE3, hG3, hObs3, hReq3⟩ := phaseTransfer_ok env _ _ h4
          have hrun : startDownload env mgr0 job0 =
              completeFinally env (phaseSidecar env st4) := by
            unfold startDownload
            dsimp only
            rw [h1]
            simp only [Except.bind, h2, h3, h4]
          obtain ⟨hPj, hPm, hPt, hPdu, hPdp, es4, hE4, hO4e, hO4n⟩ := phaseSidecar_spec env st4
          obtain ⟨hFst, hFp, hFF, hFfs, hFts, es5, hE5, hG5, hObs5, hFreq⟩ :=
            completeFinally_spec env (phaseSidecar env st4)
          rw [hrun, hE5, hE4, hE3, hE2, hE1]
          have hru : (completeFinally env (phaseSidecar env st4)).job.downloadUrl =
              st3.job.downloadUrl := by
            rw [hFF.1, hPj, hXF.1]
          have hrp : (completeFinally env (phaseSidecar env st4)).job.filePath =
              st3.job.filePath := by
            rw [hFF.2.1, hPj, hXF.2.1]
          have hro : (completeFinally env (phaseSidecar env st4)).job.outputDir =
              st3.job.outputDir := by
            rw [hFF.2.2, hPj, hXF.2.2]
          constructor
          · refine goodAny_append (goodAny_append (goodAny_append
              (goodAny_append (goodAny_append hSG hG1) hG2) hG3) ?_) hG5
            exact goodAny_of_no_notify es4 hO4e
          · intro s hs
            rw [observedSnapshots_append, observedSnapshots_append,
              observedSnapshots_append, observedSnapshots_append,
              observedSnapshots_append] at hs
            rcases List.mem_append.mp hs with hABCDE | hF
            · rcases List.mem_append.mp hABCDE with hABCD | hEp
              · rcases List.mem_append.mp hABCD with hABC | hD
                · rcases List.mem_append.mp hABC with hAB | hC
                  · rcases List.mem_append.mp hAB with hA | hB
                    · have := hSobs s hA
                      subst this
                      rw [hSj] at *
                      exact ⟨Or.inl rfl, Or.inl rfl, Or.inl rfl, Or.inr (Or.inl rfl)⟩
                    · obtain ⟨hf, hp, _⟩ := hObs1 s hB
                      rw [hSj] at hp hf
                      exact ⟨Or.inl hf.1, Or.inl hf.2.1, Or.inl hf.2.2, Or.inr (Or.inl hp)⟩
                  · obtain ⟨hSnap, _⟩ := hObs2 s hC
                    obtain ⟨hu, hp2, ho, hprog⟩ := hSnap
                    refine ⟨?_, ?_, ?_, ?_⟩
                    · rcases hu with h | h
                      · exact Or.inl (by rw [h, hRF.1, hSj])
                      · exact Or.inr (by rw [h, hru])
                    · rcases hp2 with h | h
                      · exact Or.inl (by rw [h, hRF.2.1, hSj])
                      · exact Or.inr (by rw [h, hrp])
                    · rcases ho with h | h
                      · exact Or.inl (by rw [h, hRF.2.2, hSj])
                      · exact Or.inr (by rw [h, hro])
                    · rcases hprog with h | h | h
                      · exact Or.inr (Or.inl (by rw [h, hRp, hSj]))
                      · exact Or.inl h
                      · exact Or.inr (Or.inr h)
                · obtain ⟨hf, _, hprog⟩ := hObs3 s hD
                  refine ⟨Or.inr (by rw [hf.1, hru]), Or.inr (by rw [hf.2.1, hrp]),
                    Or.inr (by rw [hf.2.2, hro]), ?_⟩
                  rcases hprog with h | h
                  · exact Or.inr (Or.inl (by rw [h, hTp, hRp, hSj]))
                  · exact Or.inl h
              · rw [hO4e] at hEp
                simp at hEp
            · obtain ⟨hst, hpr, hf⟩ := hObs5 s hF
              refine ⟨Or.inr ?_, Or.inr ?_, Or.inr ?_, Or.inr (Or.inr ⟨hst, by rw [hpr]⟩)⟩
              · rw [hf.1, hFF.1]
              · rw [hf.2.1, hFF.2.1]
              · rw [hf.2.2, hFF.2.2]

/-- The retry fast path: when downloadUrl, filePath and modelId are all
truthy at run entry, the run never re-derives any placement field, every
outgoing model-file request uses the stored download URL, and every
observed snapshot carries the stored placement fields verbatim. -/
theorem startDownload_retry_spec (env : Env) (mgr0 : Mgr) (job0 : Job)
    (hr : isRetryOf job0 = true) :
    jobFieldsPreserved job0 (startDownload env mgr0 job0).job ∧
    (∀ u hs, Event.requestEv u hs ∈ (startDownload env mgr0 job0).events →
      u = job0.downloadUrl.getD "") ∧
    (∀ s ∈ observedSnapshots (startDownload env mgr0 job0).events,
      s.downloadUrl = job0.downloadUrl ∧ s.filePath = job0.filePath ∧
      s.outputDir = job0.outputDir) := by
  obtain ⟨hSj, hSfs, hSm, hSt, hSG, hSobs, hSreq⟩ := phaseStart_spec env mgr0 job0
  have hr0 : isRetryOf (phaseStart env mgr0 job0).job = true := by
    rw [hSj]
    exact hr
  have h1 := phaseResolve_retry env (phaseStart env mgr0 job0) hr0
  obtain ⟨st2, h2, hj2, he2, hm2, hfs2, hdu2, hdp2, hmeta2, hts2⟩ :=
    phaseSetup_meta_none env (phaseStart env mgr0 job0) hSm
  have hj2f : st2.job.downloadUrl = job0.downloadUrl ∧ st2.job.filePath = job0.filePath ∧
      st2.job.outputDir = job0.outputDir := by
    rw [hj2, hSj]
    exact ⟨rfl, rfl, rfl⟩
  cases h3 : phaseGuard st2 with
  | error e =>
    obtain ⟨msg, st'⟩ := e
    have hst' := phaseGuard_error _ _ _ h3
    subst hst'
    have hrun : startDownload env mgr0 job0 = catchFinally env msg st' := by
      unfold startDownload
      dsimp only
      rw [h1]
      simp only [Except.bind, h2, h3]
    obtain ⟨_, _, _, hCF, _, _, esC, hCE, hCG, hCobs, hCreq⟩ := catchFinally_spec env msg st'
    rw [hrun, hCE, he2]
    refine ⟨?_, ?_, ?_⟩
    · have := (catchFinally_spec env msg st').2.2.2.1
      exact ⟨this.1.trans hj2f.1, this.2.1.trans hj2f.2.1, this.2.2.trans hj2f.2.2⟩
    · intro u hs hmem
      rcases List.mem_append.mp hmem with hA | hB
      · exact absurd hA (hSreq u hs)
      · exact absurd hB (hCreq u hs)
    · intro s hs
      rw [observedSnapshots_append] at hs
      rcases List.mem_append.mp hs with hA | hB
      · have := hSobs s hA
        subst this
        exact ⟨rfl, rfl, rfl⟩
      · obtain ⟨_, hf, _⟩ := hCobs s hB
        exact ⟨hf.1.trans hj2f.1, hf.2.1.trans hj2f.2.1, hf.2.2.trans hj2f.2.2⟩
  | ok st3 =>
    obtain ⟨hst3, hGdu, hGdp⟩ := phaseGuard_ok _ _ h3
    subst hst3
    cases h4 : phaseTransfer env st3 with
    | error e =>
      obtain ⟨msg, st'⟩ := e
      obtain ⟨hXF, hXst, hXp, hXm, hXdu, hXdp, hXed, hXac, hXfs,
        es3, hE3, hG3, hObs3, hReq3⟩ := phaseTransfer_error env _ _ _ h4
      have hrun : startDownload env mgr0 job0 = catchFinally env msg st' := by
        unfold startDownload
        dsimp only
        rw [h1]
        simp only [Except.bind, h2, h3, h4]
      obtain ⟨_, _, _, hCF, _, _, esC, hCE, hCG, hCobs, hCreq⟩ := catchFinally_spec env msg st'
      have hsf : st'.job.downloadUrl = job0.downloadUrl ∧ st'.job.filePath = job0.filePath ∧
          st'.job.outputDir = job0.outputDir :=
        ⟨hXF.1.trans hj2f.1, hXF.2.1.trans hj2f.2.1, hXF.2.2.trans hj2f.2.2⟩
      rw [hrun, hCE, hE3, he2]
      refine ⟨?_, ?_, ?_⟩
      · have := (catchFinally_spec env msg st').2.2.2.1
        exact ⟨this.1.trans hsf.1, this.2.1.trans hsf.2.1, this.2.2.trans hsf.2.2⟩
      · intro u hs hmem
        rcases List.mem_append.mp hmem with hAB | hC
        · rcases List.mem_append.mp hAB with hA | hB
          · exact absurd hA (hSreq u hs)
          · have := hReq3 u hs hB
            rw [hdu2, hSj] at this
            exact this
        · exact absurd hC (hCreq u hs)
      · intro s hs
        rw [observedSnapshots_append, observedSnapshots_append] at hs
        rcases List.mem_append.mp hs with hAB | hC
        · rcases List.mem_append.mp hAB with hA | hB
          · have := hSobs s hA
            subst this
            exact ⟨rfl, rfl, rfl⟩
          · obtain ⟨hf, _, _⟩ := hObs3 s hB
            exact ⟨hf.1.trans hj2f.1, hf.2.1.trans hj2f.2.1, hf.2.2.trans hj2f.2.2⟩
        · obtain ⟨_, hf, _⟩ := hCobs s hC
          exact ⟨hf.1.trans hsf.1, hf.2.1.trans hsf.2.1, hf.2.2.trans hsf.2.2⟩
    | ok st4 =>
      obtain ⟨hXF, hXst, hXp, hXm, hXdu, hXdp, hXed, hXac, hXts,
        es3, hE3, hG3, hObs3, hReq3⟩ := phaseTransfer_ok env _ _ h4
      have hrun : startDownload env mgr0 job0 =
          completeFinally env (phaseSidecar env st4) := by
        unfold startDownload
        dsimp only
        rw [h1]
        simp only [Except.bind, h2, h3, h4]
      obtain ⟨hPj, hPm, hPt, hPdu, hPdp, es4, hE4, hO4e, hO4n⟩ := phaseSidecar_spec env st4
      have hm4 : st4.meta = none := by
        rw [hXm]
        exact hmeta2
      have hes4 : es4 = [] := hO4n hm4
      obtain ⟨hFst, hFp, hFF, hFfs, hFts, es5, hE5, hG5, hObs5, hFreq⟩ :=
        completeFinally_spec env (phaseSidecar env st4)
      have hsf : st4.job.downloadUrl = job0.downloadUrl ∧ st4.job.filePath = job0.filePath ∧
          st4.job.outputDir = job0.outputDir :=
        ⟨hXF.1.trans hj2f.1, hXF.2.1.trans hj2f.2.1, hXF.2.2.trans hj2f.2.2⟩
      rw [hrun, hE5, hE4, hes4, hE3, he2]
      refine ⟨?_, ?_, ?_⟩
      · refine ⟨?_, ?_, ?_⟩
        · rw [hFF.1, hPj, hsf.1]
        · rw [hFF.2.1, hPj, hsf.2.1]
        · rw [hFF.2.2, hPj, hsf.2.2]
      · intro u hs hmem
        rcases List.mem_append.mp hmem with hABC | hD
        · rcases List.mem_append.mp hABC with hAB0 | hC
          · rcases List.mem_append.mp hAB0 with hA | hB
            · exact absurd hA (hSreq u hs)
            · have := hReq3 u hs hB
              rw [hdu2, hSj] at this
              exact this
          · simp at hC
        · exact absurd hD (hFreq u hs)
      · intro s hs
        rw [observedSnapshots_append, observedSnapshots_append,
          observedSnapshots_append] at hs
        rcases List.mem_append.mp hs with hABC | hD
        · rcases List.mem_append.mp hABC with hAB0 | hC
          · rcases List.mem_append.mp hAB0 with hA | hB
            · have := hSobs s hA
              subst this
              exact ⟨rfl, rfl, rfl⟩
            · obtain ⟨hf, _, _⟩ := hObs3 s hB
              exact ⟨hf.1.trans hj2f.1, hf.2.1.trans hj2f.2.1, hf.2.2.trans hj2f.2.2⟩
          · simp [observedSnapshots] at hC
        · obtain ⟨_, _, hf⟩ := hObs5 s hD
          have hsf2 : (phaseSidecar env st4).job.downloadUrl = job0.downloadUrl ∧
              (phaseSidecar env st4).job.filePath = job0.filePath ∧
              (phaseSidecar env st4).job.outputDir = job0.outputDir := by
            rw [hPj]
            exact hsf
          exact ⟨hf.1.trans hsf2.1, hf.2.1.trans hsf2.2.1, hf.2.2.trans hsf2.2.2⟩

/-- A run whose byte transfer began and whose abort signal fired while the
transfer was streaming ends cancelled, and the partial file at the job's
filePath has been removed. -/
theorem startDownload_cancel_spec (env : Env) (mgr0 : Mgr) (job0 : Job)
    (hab : env.abortTime = AbortTime.duringTransfer)
    (hts : (startDownload env mgr0 job0).tStarted = true) :
    (startDownload env mgr0 job0).job.status = Status.cancelled ∧
    ∀ p, (startDownload env mgr0 job0).job.filePath = some p →
      (startDownload env mgr0 job0).fs.present p = false := by
  obtain ⟨hSj, hSfs, hSm, hSt, hSG, hSobs, hSreq⟩ := phaseStart_spec env mgr0 job0
  cases h1 : phaseResolve env (phaseStart env mgr0 job0) with
  | error e =>
    obtain ⟨msg, st'⟩ := e
    have hst' := phaseResolve_error env _ _ _ h1
    subst hst'
    have hrun : startDownload env mgr0 job0 =
        catchFinally env msg (phaseStart env mgr0 job0) := by
      unfold startDownload
      dsimp only
      rw [h1]
      rfl
    rw [hrun] at hts
    rw [(catchFinally_spec env msg (phaseStart env mgr0 job0)).2.2.2.2.2.1, hSt] at hts
    cases hts
  | ok st1 =>
    obtain ⟨hRF, hRp, hRst, hRfs, hRac, hRts, hRdp, hRdu, hRed, es1, hE1, hG1, hObs1⟩ :=
      phaseResolve_ok env _ _ h1
    cases h2 : phaseSetup env st1 with
    | error e =>
      obtain ⟨msg, st'⟩ := e
      obtain ⟨hj2, he2, hfs2, hmgr2, hts2⟩ := phaseSetup_error env _ _ _ h2
      have hrun : startDownload env mgr0 job0 = catchFinally env msg st' := by
        unfold startDownload
        dsimp only
        rw [h1]
        simp only [Except.bind, h2]
      rw [hrun] at hts
      rw [(catchFinally_spec env msg st').2.2.2.2.2.1, hts2, hRts, hSt] at hts
      cases hts
    | ok st2 =>
      obtain ⟨hTp, hTst, hTdp, hTdu, hTfs, hTac, hTts, hTm, es2, hE2, hG2, hObs2⟩ :=
        phaseSetup_ok env _ _ h2
      cases h3 : phaseGuard st2 with
      | error e =>
        obtain ⟨msg, st'⟩ := e
        have hst' := phaseGuard_error _ _ _ h3
        subst hst'
        have hrun : startDownload env mgr0 job0 = catchFinally env msg st' := by
          unfold startDownload
          dsimp only
          rw [h1]
          simp only [Except.bind, h2, h3]
        rw [hrun] at hts
        rw [(catchFinally_spec env msg st').2.2.2.2.2.1, hTts, hRts, hSt] at hts
        cases hts
      | ok st3 =>
        obtain ⟨hst3, hGdu, hGdp⟩ := phaseGuard_ok _ _ h3
        subst hst3
        cases h4 : phaseTransfer env st3 with
        | error e =>
          obtain ⟨msg, st'⟩ := e
          obtain ⟨hXF, hXst, hXp, hXm, hXdu, hXdp, hXed, hXac, hXfs,
            es3, hE3, hG3, hObs3, hReq3⟩ := phaseTransfer_error env _ _ _ h4
          have hrun : startDownload env mgr0 job0 = catchFinally env msg st' := by
            unfold startDownload
            dsimp only
            rw [h1]
            simp only [Except.bind, h2, h3, h4]
          rcases hXfs with ⟨habR, _⟩ | ⟨_, hfsR⟩
          · rw [hab] at habR
            cases habR
          · constructor
            · rw [hrun, (catchFinally_spec env msg st').1, hab]
              rfl
            · intro p hp
              rw [hrun] at hp ⊢
              rw [(catchFinally_spec env msg st').2.2.2.2.1, hfsR]
              rw [((catchFinally_spec env msg st').2.2.2.1).2.1, hXF.2.1] at hp
              have hfp : st3.destPath = some p := by
                rw [hTdp]
                exact hp
              rw [hfp]
              exact fsRemove_present_self _ _
        | ok st4 =>
          obtain ⟨hXF, hXst, hXp, hXm, hXdu, hXdp, hXed, hXac, hXts,
            es3, hE3, hG3, hObs3, hReq3⟩ := phaseTransfer_ok env _ _ h4
          have hrun : startDownload env mgr0 job0 =
              completeFinally env (phaseSidecar env st4) := by
            unfold startDownload
            dsimp only
            rw [h1]
            simp only [Except.bind, h2, h3, h4]
          rw [hrun] at hts
          rw [(completeFinally_spec env (phaseSidecar env st4)).2.2.2.2.1,
            (phaseSidecar_spec env st4).2.2.1, hXts hab, hTts, hRts, hSt] at hts
          cases hts

theorem phaseResolve_fresh (env : Env) (st : St) (hnr : isRetryOf st.job = false)
    (m : SourceMetadata) (hres : env.resolve = Except.ok m) :
    ∃ st1, phaseResolve env st = Except.ok st1 ∧ st1.meta = some m ∧
      st1.job.modelType = st.job.modelType ∧ st1.job.baseModel = st.job.baseModel ∧
      st1.job.outputDir = st.job.outputDir ∧ st1.job.downloadUrl = st.job.downloadUrl := by
  unfold phaseResolve
  rw [if_neg (by simp [hnr]), hres]
  exact ⟨_, rfl, rfl, rfl, rfl, rfl, rfl⟩

theorem computeOutputDir_congr (rp : String → String) (md : String) (j j2 : Job)
    (m : SourceMetadata) (h1 : j.modelType = j2.modelType)
    (h2 : j.baseModel = j2.baseModel) (h3 : j.outputDir = j2.outputDir) :
    computeOutputDir rp md j m = computeOutputDir rp md j2 m := by
  unfold computeOutputDir
  rw [h1, h2, h3]

theorem phaseSetup_fresh (env : Env) (st : St) (m : SourceMetadata) (file : SourceFile)
    (hm : st.meta = some m) (hf : m.files.head? = some file)
    (hsel : truthyS (selectDownloadUrl st.job.downloadUrl file) = true) :
    ∃ st2, phaseSetup env st = Except.ok st2 ∧
      st2.job.outputDir =
        some (computeOutputDir env.resolvePath env.modelDir st.job m).2.2 := by
  unfold phaseSetup
  rw [hm]
  dsimp only
  rw [hf]
  dsimp only
  rw [if_neg (by simp [hsel])]
  exact ⟨_, rfl, rfl⟩

/-- A fresh resolution computes the job's final output directory by the
computeOutputDir rule applied to the entry job and the resolved metadata,
whatever happens afterwards in the run. -/
theorem startDownload_fresh_outputDir (env : Env) (mgr0 : Mgr) (job0 : Job)
    (m : SourceMetadata) (file : SourceFile)
    (hnr : isRetryOf job0 = false) (hres : env.resolve = Except.ok m)
    (hf : m.files.head? = some file)
    (hsel : truthyS (selectDownloadUrl job0.downloadUrl file) = true) :
    (startDownload env mgr0 job0).job.outputDir =
      some (computeOutputDir env.resolvePath env.modelDir job0 m).2.2 := by
  obtain ⟨hSj, hSfs, hSm, hSt, hSG, hSobs, hSreq⟩ := phaseStart_spec env mgr0 job0
  have hnr0 : isRetryOf (phaseStart env mgr0 job0).job = false := by
    rw [hSj]
    exact hnr
  obtain ⟨st1, h1, hm1, hmt1, hbm1, hod1, hdu1⟩ :=
    phaseResolve_fresh env (phaseStart env mgr0 job0) hnr0 m hres
  have hsel1 : truthyS (selectDownloadUrl st1.job.downloadUrl file) = true := by
    rw [hdu1, hSj]
    exact hsel
  obtain ⟨st2, h2, hod2⟩ := phaseSetup_fresh env st1 m file hm1 hf hsel1
  have hcod : computeOutputDir env.resolvePath env.modelDir st1.job m =
      computeOutputDir env.resolvePath env.modelDir job0 m := by
    refine computeOutputDir_congr _ _ _ _ _ ?_ ?_ ?_
    · rw [hmt1, hSj]
    · rw [hbm1, hSj]
    · rw [hod1, hSj]
  rw [hcod] at hod2
  cases h3 : phaseGuard st2 with
  | error e =>
    obtain ⟨msg, st'⟩ := e
    have hst' := phaseGuard_error _ _ _ h3
    subst hst'
    have hrun : startDownload env mgr0 job0 = catchFinally env msg st' := by
      unfold startDownload
      dsimp only
      rw [h1]
      simp only [Except.bind, h2, h3]
    rw [hrun, ((catchFinally_spec env msg st').2.2.2.1).2.2]
    exact hod2
  | ok st3 =>
    obtain ⟨hst3, hGdu, hGdp⟩ := phaseGuard_ok _ _ h3
    subst hst3
    cases h4 : phaseTransfer env st3 with
    | error e =>
      obtain ⟨msg, st'⟩ := e
      obtain ⟨hXF, hXst, hXp, hXm, hXdu, hXdp, hXed, hXac, hXfs,
        es3, hE3, hG3, hObs3, hReq3⟩ := phaseTransfer_error env _ _ _ h4
      have hrun : startDownload env mgr0 job0 = catchFinally env msg st' := by
        unfold startDownload
        dsimp only
        rw [h1]
        simp only [Except.bind, h2, h3, h4]
      rw [hrun, ((catchFinally_spec env msg st').2.2.2.1).2.2, hXF.2.2]
      exact hod2
    | ok st4 =>
      obtain ⟨hXF, hXst, hXp, hXm, hXdu, hXdp, hXed, hXac, hXts,
        es3, hE3, hG3, hObs3, hReq3⟩ := phaseTransfer_ok env _ _ h4
      have hrun : startDownload env mgr0 job0 =
          completeFinally env (phaseSidecar env st4) := by
        unfold startDownload
        dsimp only
        rw [h1]
        simp only [Except.bind, h2, h3, h4]
      rw [hrun, ((completeFinally_spec env (phaseSidecar env st4)).2.2.1).2.2,
        (phaseSidecar_spec env st4).1, hXF.2.2]
      exact hod2

/-! ## loadJobs lemmas (C6) -/

theorem getEntry_loadJobsAux_untouched : ∀ (l : List Job) (acc : List (String × Job))
    (k : String), (∀ q ∈ l, q.id ≠ k) →
    getEntry (l.foldl (fun m j => setEntry m j.id (reviveJob j)) acc) k = getEntry acc k := by
  intro l
  induction l with
  | nil => intro acc k _; rfl
  | cons j l ih =>
    intro acc k hq
    simp only [List.foldl_cons]
    rw [ih _ _ (fun q hm => hq q (List.mem_cons_of_mem _ hm))]
    exact getEntry_setEntry_ne _ _ _ _ (Ne.symm (hq j (List.mem_cons_self _ _)))

theorem getEntry_loadJobsAux : ∀ (l : List Job) (acc : List (String × Job)) (p : Job),
    p ∈ l → (l.map (fun j => j.id)).Nodup →
    getEntry (l.foldl (fun m j => setEntry m j.id (reviveJob j)) acc) p.id =
      some (reviveJob p) := by
  intro l
  induction l with
  | nil => intro acc p hp _; cases hp
  | cons j l ih =>
    intro acc p hp hn
    simp only [List.map_cons, List.nodup_cons] at hn
    rcases List.mem_cons.mp hp with rfl | hmem
    · simp only [List.foldl_cons]
      rw [getEntry_loadJobsAux_untouched l _ p.id ?_]
      · exact getEntry_setEntry_self _ _ _
      · intro q hq he
        exact hn.1 (he ▸ List.mem_map_of_mem (fun j => j.id) hq)
    · simp only [List.foldl_cons]
      exact ih _ p hmem hn.2

/-! ## Claim theorems -/

/-- C6: loading a persisted store at manager construction forces every job
found in status pending or downloading to failed with the fixed message
"Server restarted during download", and loads every job already in a
terminal state unchanged. -/
theorem c6_load_reconciliation (persisted : List Job) (p : Job)
    (hmem : p ∈ persisted)
    (hnodup : (persisted.map (fun j => j.id)).Nodup) :
    getEntry (loadJobs persisted) p.id = some (reviveJob p) ∧
    ((p.status = Status.pending ∨ p.status = Status.downloading) →
      reviveJob p =
        { p with status := Status.failed
                 error := some "Server restarted during download" }) ∧
    (p.status ≠ Status.pending → p.status ≠ Status.downloading → reviveJob p = p) := by
  refine ⟨getEntry_loadJobsAux persisted [] p hmem hnodup, ?_, ?_⟩
  · intro h
    unfold reviveJob
    rcases h with h | h <;> simp [h]
  · intro h1 h2
    unfold reviveJob
    rw [if_neg (by simp [h1, h2])]

/-- C6 witness: a store holding one job stuck in downloading loads as
failed with the restart message. -/
theorem c6_load_reconciliation_witness :
    getEntry (loadJobs [{ exJob with status := Status.downloading }])
      ({ exJob with status := Status.downloading } : Job).id =
      some (reviveJob { exJob with status := Status.downloading }) ∧
    ((({ exJob with status := Status.downloading } : Job).status = Status.pending ∨
      ({ exJob with status := Status.downloading } : Job).status = Status.downloading) →
      reviveJob { exJob with status := Status.downloading } =
        { ({ exJob with status := Status.downloading } : Job) with
            status := Status.failed
            error := some "Server restarted during download" }) ∧
    (({ exJob with status := Status.downloading } : Job).status ≠ Status.pending →
      ({ exJob with status := Status.downloading } : Job).status ≠ Status.downloading →
      reviveJob { exJob with status := Status.downloading } =
        { exJob with status := Status.downloading }) :=
  c6_load_reconciliation [{ exJob with status := Status.downloading }]
    { exJob with status := Status.downloading } (List.mem_singleton_self _) (by decide)

/-- C7: every mutation of observable job state goes through updateJob,
which hands the whole job collection to the store before invoking any
subscribed listener; accordingly, in every startDownload run each listener
notification is preceded by a persist of a store containing the notified
snapshot. -/
theorem c7_persist_before_notify :
    (∀ env mgr0 job0, persistBeforeNotify [] (startDownload env mgr0 job0).events) ∧
    (∀ mgr now job, persistBeforeNotify [] (updateJob mgr now job).2.2) := by
  constructor
  · intro env mgr0 job0
    exact (startDownload_trace_spec env mgr0 job0).1 []
  · intro mgr now job
    exact goodAny_updateJob mgr now job []

/-- C8: a 300-399 redirect whose resolved target has a different hostname
is followed with the caller headers dropped — the follow-up request of
downloadFile and downloadToBuffer carries only the User-Agent default and
no Authorization header — while a same-hostname redirect keeps the caller
headers verbatim. -/
theorem c8_redirect_header_scoping (url target : Url)
    (headers hsF hsB : List (String × String)) (status : Nat)
    (h3 : 300 ≤ status) (h4 : status < 400)
    (hF : downloadFileRedirectStep url headers status (some target) =
      FetchStep.follow target hsF)
    (hB : downloadToBufferRedirectStep url headers status (some target) =
      FetchStep.follow target hsB) :
    (url.hostname ≠ target.hostname →
      hsF = [] ∧ hsB = [] ∧
      requestHeaders hsF = [("User-Agent", "ModelManager/1.0")] ∧
      lookupHeader (requestHeaders hsF) "Authorization" = none ∧
      lookupHeader (requestHeaders hsB) "Authorization" = none) ∧
    (url.hostname = target.hostname → hsF = headers ∧ hsB = headers) := by
  unfold downloadFileRedirectStep at hF
  unfold downloadToBufferRedirectStep at hB
  dsimp only at hF hB
  rw [if_pos (by simp [h3, h4])] at hF hB
  by_cases hh : url.hostname = target.hostname
  · rw [if_pos (by simp [hh])] at hF hB
    injection hF with _ h2F
    injection hB with _ h2B
    exact ⟨fun hc => absurd hh hc, fun _ => ⟨h2F.symm, h2B.symm⟩⟩
  · rw [if_neg (by simp [hh])] at hF hB
    injection hF with _ h2F
    injection hB with _ h2B
    refine ⟨fun _ => ⟨h2F.symm, h2B.symm, ?_, ?_, ?_⟩, fun hc => absurd hc hh⟩
    · rw [← h2F]
      rfl
    · rw [← h2F]
      decide
    · rw [← h2B]
      decide

/-- C8 witness: a 302 from a.example to b.example drops a bearer header;
the follow-up request carries only the User-Agent. -/
theorem c8_redirect_header_scoping_witness :
    ((Url.mk "a.example" "https://a.example/f").hostname ≠
        (Url.mk "b.example" "https://b.example/f").hostname →
      ([] : List (String × String)) = [] ∧ ([] : List (String × String)) = [] ∧
      requestHeaders [] = [("User-Agent", "ModelManager/1.0")] ∧
      lookupHeader (requestHeaders []) "Authorization" = none ∧
      lookupHeader (requestHeaders []) "Authorization" = none) ∧
    ((Url.mk "a.example" "https://a.example/f").hostname =
        (Url.mk "b.example" "https://b.example/f").hostname →
      ([] : List (String × String)) = [("Authorization", "Bearer tok")] ∧
      ([] : List (String × String)) = [("Authorization", "Bearer tok")]) :=
  c8_redirect_header_scoping (Url.mk "a.example" "https://a.example/f")
    (Url.mk "b.example" "https://b.example/f") [("Authorization", "Bearer tok")] [] []
    302 (by decide) (by decide) (by decide) (by decide)

/-- C9 counterexample: the source attaches the bearer token by a substring
test on the whole URL, so a URL whose host is neither huggingface.co nor
civitai.com still receives the huggingface Authorization header when the
source name appears in its query string. -/
theorem c9_counterexample :
    hostnameOf "https://evil.example/dl?mirror=huggingface.co" = "evil.example" ∧
    hostnameOf "https://evil.example/dl?mirror=huggingface.co" ≠ "huggingface.co" ∧
    hostnameOf "https://evil.example/dl?mirror=huggingface.co" ≠ "civitai.com" ∧
    lookupHeader
      (authHeadersFor (fun s => if s == "huggingface" then some "tok123" else none)
        "https://evil.example/dl?mirror=huggingface.co") "Authorization" =
      some "Bearer tok123" := by
  refine ⟨by decide, by decide, by decide, by decide⟩

/-- C9 (amended): the Authorization header is attached iff the download
URL CONTAINS the substring huggingface.co (checked first) or civitai.com
and the token store holds a truthy token for that service; the attached
value is the bearer form of that token. The test is substring-based, not
host-based. -/
theorem c9_amended (tokens : String → Option String) (url : String) :
    ((lookupHeader (authHeadersFor tokens url) "Authorization").isSome = true ↔
      ((strContains url "huggingface.co" = true ∧ truthyS (tokens "huggingface") = true) ∨
       (strContains url "huggingface.co" = false ∧ strContains url "civitai.com" = true ∧
         truthyS (tokens "civitai") = true))) ∧
    (∀ t, lookupHeader (authHeadersFor tokens url) "Authorization" = some t →
      (t = "Bearer " ++ (tokens "huggingface").getD "" ∨
       t = "Bearer " ++ (tokens "civitai").getD "")) := by
  unfold authHeadersFor
  by_cases hhf : strContains url "huggingface.co" = true
  · rw [if_pos hhf]
    by_cases htk : truthyS (tokens "huggingface") = true
    · rw [if_pos htk]
      constructor
      · simp [lookupHeader, hhf, htk]
      · intro t ht
        simp [lookupHeader] at ht
        exact Or.inl ht.symm
    · rw [if_neg htk]
      constructor
      · simp [lookupHeader, hhf, htk]
      · intro t ht
        simp [lookupHeader] at ht
  · rw [if_neg hhf]
    have hhf2 : strContains url "huggingface.co" = false := by
      simp only [Bool.not_eq_true] at hhf
      exact hhf
    by_cases hcv : strContains url "civitai.com" = true
    · rw [if_pos hcv]
      by_cases htk : truthyS (tokens "civitai") = true
      · rw [if_pos htk]
        constructor
        · simp [lookupHeader, hhf2, hcv, htk]
        · intro t ht
          simp [lookupHeader] at ht
          exact Or.inr ht.symm
      · rw [if_neg htk]
        constructor
        · simp [lookupHeader, hhf2, hcv, htk]
        · intro t ht
          simp [lookupHeader] at ht
    · rw [if_neg hcv]
      have hcv2 : strContains url "civitai.com" = false := by
        simp only [Bool.not_eq_true] at hcv
        exact hcv
      constructor
      · simp [lookupHeader, hhf2, hcv2]
      · intro t ht
        simp [lookupHeader] at ht

/-- C9 witness: for a genuine huggingface.co download URL with a stored
token, the characterization yields the bearer header. -/
theorem c9_amended_witness :
    ((lookupHeader (authHeadersFor (fun s => if s == "huggingface" then some "T" else none)
        "https://huggingface.co/o/r/resolve/main/f") "Authorization").isSome = true ↔
      ((strContains "https://huggingface.co/o/r/resolve/main/f" "huggingface.co" = true ∧
        truthyS ((fun s => if s == "huggingface" then some "T" else none) "huggingface") = true) ∨
       (strContains "https://huggingface.co/o/r/resolve/main/f" "huggingface.co" = false ∧
        strContains "https://huggingface.co/o/r/resolve/main/f" "civitai.com" = true ∧
        truthyS ((fun s => if s == "huggingface" then some "T" else none) "civitai") = true))) ∧
    (∀ t, lookupHeader (authHeadersFor (fun s => if s == "huggingface" then some "T" else none)
        "https://huggingface.co/o/r/resolve/main/f") "Authorization" = some t →
      (t = "Bearer " ++ (((fun s => if s == "huggingface" then some "T" else none) "huggingface").getD "") ∨
       t = "Bearer " ++ (((fun s => if s == "huggingface" then some "T" else none) "civitai").getD ""))) :=
  c9_amended (fun s => if s == "huggingface" then some "T" else none)
    "https://huggingface.co/o/r/resolve/main/f"

/-- C10 counterexample: a civarchive file whose first available mirror has
an empty url string. Mirror selection does produce an answer (some ""),
but the source's guard is JS truthiness, and "" is falsy: the run fails
with exactly "No download URL available" despite the file having a
non-empty mirror list ending in the available fallback. -/
theorem c10_counterexample :
    exCAMappedEmpty ∈ civarchiveFiles exCAVersionEmpty ∧
    (selectDownloadUrl none exCAMappedEmpty).isSome = true ∧
    truthyS (selectDownloadUrl none exCAMappedEmpty) = false ∧
    (startDownload exEnvEmpty exMgr exJob).job.status = Status.failed ∧
    (startDownload exEnvEmpty exMgr exJob).job.error = some "No download URL available" :=
  ⟨by decide, by decide, by decide, by decide, by decide⟩

/-- C10 (amended): every file of a civarchive resolution carries a
non-empty mirror list whose last element is the always-available fallback
mirror, so the selection step always finds a first available mirror and
returns its url (never none as an Option). The job's no-download-URL guard
tests JS truthiness of that url, which holds iff the selected (first
available) mirror's url is non-empty — in particular whenever every
available mirror in the list has a non-empty url, which the fallback
itself always does; an available mirror earlier in the list with an empty
url string still makes the run fail with "No download URL available". -/
theorem c10_mirror_selection (version : CivArchiveVersion) (f : SourceFile)
    (hf : f ∈ civarchiveFiles version) :
    ∃ l, f.mirrors = some l ∧ l ≠ [] ∧
      l.getLast? = some (civarchiveFallbackMirror version.id) ∧
      (civarchiveFallbackMirror version.id).available = true ∧
      ∃ m, l.find? (fun mr => mr.available) = some m ∧
        selectDownloadUrl none f = some m.url ∧
        (truthyS (selectDownloadUrl none f) = true ↔ m.url ≠ "") ∧
        ((∀ m2 ∈ l, m2.available = true → m2.url ≠ "") →
          truthyS (selectDownloadUrl none f) = true) := by
  obtain ⟨f0, hf0, rfl⟩ := List.mem_map.mp hf
  have hmem : civarchiveFallbackMirror version.id ∈ getAvailableMirrors f0 version.id := by
    unfold getAvailableMirrors
    exact List.mem_append_right _ (List.mem_singleton_self _)
  cases hfind : (getAvailableMirrors f0 version.id).find? (fun mr => mr.available) with
  | none =>
    exfalso
    have := List.find?_eq_none.mp hfind _ hmem
    simp [civarchiveFallbackMirror] at this
  | some m =>
    have hsel : selectDownloadUrl none
        ({ id := f0.id, name := f0.name, type := f0.type, sizeKB := f0.sizeKB,
           sha256 := f0.sha256, downloadUrl := none,
           mirrors := some (getAvailableMirrors f0 version.id) } : SourceFile) =
        some m.url := by
      unfold selectDownloadUrl
      rw [if_neg (by simp [truthyS])]
      simp [hfind]
    refine ⟨getAvailableMirrors f0 version.id, rfl, ?_, ?_, rfl, m, hfind, hsel, ?_, ?_⟩
    · unfold getAvailableMirrors
      simp
    · unfold getAvailableMirrors
      exact List.getLast?_concat _
    · rw [hsel]
      simp [truthyS]
    · intro hall
      have hmm : m ∈ getAvailableMirrors f0 version.id := List.mem_of_find?_eq_some hfind
      have hav : m.available = true := by simpa using List.find?_some hfind
      have hne : m.url ≠ "" := hall m hmm hav
      rw [hsel]
      simp [truthyS, hne]

/-- C10 witness: the concrete mapped file whose only raw mirror is deleted
selects the appended fallback mirror, whose url is non-empty, so the guard
passes. -/
theorem c10_mirror_selection_witness :
    ∃ l, exCAMapped.mirrors = some l ∧ l ≠ [] ∧
      l.getLast? = some (civarchiveFallbackMirror exCAVersion.id) ∧
      (civarchiveFallbackMirror exCAVersion.id).available = true ∧
      ∃ m, l.find? (fun mr => mr.available) = some m ∧
        selectDownloadUrl none exCAMapped = some m.url ∧
        (truthyS (selectDownloadUrl none exCAMapped) = true ↔ m.url ≠ "") ∧
        ((∀ m2 ∈ l, m2.available = true → m2.url ≠ "") →
          truthyS (selectDownloadUrl none exCAMapped) = true) :=
  c10_mirror_selection exCAVersion exCAMapped (by decide)

/-- C1 counterexample: a run whose Content-Length is unknown (total 0)
still delivers the completed snapshot with percent forced to 100, so a
subscribed listener observes percent 100 with total 0, refuting the claim
that percent always equals 0 when total equals 0. -/
theorem c1_counterexample :
    (((observedSnapshots (startDownload exEnv exMgr exJob).events).map
        (fun j => (j.progress.total, j.progress.percent, j.status))).getLast? =
      some ((0 : ℚ), (100 : ℚ), Status.completed)) ∧
    ¬ (∀ s ∈ observedSnapshots (startDownload exEnv exMgr exJob).events,
        s.progress.total = 0 → s.progress.percent = 0) :=
  ⟨by decide, by decide⟩

/-- C1 (amended): every progress snapshot a subscribed listener observes
either satisfies the derived-percent rule, or re-broadcasts the progress
the job had at run entry unchanged, or is the completed transition
snapshot whose percent the manager forcibly sets to 100. -/
theorem c1_amended (env : Env) (mgr0 : Mgr) (job0 : Job) :
    ∀ s ∈ observedSnapshots (startDownload env mgr0 job0).events,
      derivedPercentP s.progress ∨ s.progress = job0.progress ∨
        (s.status = Status.completed ∧ s.progress.percent = 100) := by
  intro s hs
  exact ((startDownload_trace_spec env mgr0 job0).2 s hs).2.2.2

/-- C1 witness: the first snapshot of a concrete run re-broadcasts the
entry progress. -/
theorem c1_amended_witness :
    derivedPercentP ({ exJob with status := Status.downloading, updatedAt := 5 } : Job).progress ∨
    ({ exJob with status := Status.downloading, updatedAt := 5 } : Job).progress = exJob.progress ∨
    (({ exJob with status := Status.downloading, updatedAt := 5 } : Job).status = Status.completed ∧
      ({ exJob with status := Status.downloading, updatedAt := 5 } : Job).progress.percent = 100) :=
  c1_amended exEnv exMgr exJob { exJob with status := Status.downloading, updatedAt := 5 }
    (by decide)

/-- C5 counterexample: cancelJob on an active job signals the abort, but
when the signal lands after the byte transfer already finished the run
completes: the job ends completed, not cancelled. -/
theorem c5_counterexample :
    cancelJob { exMgr with active := setEntry exMgr.active exJob.id exEnv.listeners } "j1" = true ∧
    ({ exEnv with abortTime := AbortTime.afterTransfer } : Env).abortTime ≠ AbortTime.never ∧
    (startDownload { exEnv with abortTime := AbortTime.afterTransfer } exMgr exJob).job.status =
      Status.completed ∧
    (startDownload { exEnv with abortTime := AbortTime.afterTransfer } exMgr exJob).job.status ≠
      Status.cancelled :=
  ⟨by decide, by decide, by decide, by decide⟩

/-- C5 (amended): when the abort signal fires while the model-file byte
transfer is actually streaming, the job ends cancelled — never failed —
and no partial file remains at the job's filePath. -/
theorem c5_amended (env : Env) (mgr0 : Mgr) (job0 : Job)
    (hab : env.abortTime = AbortTime.duringTransfer)
    (hts : (startDownload env mgr0 job0).tStarted = true) :
    (startDownload env mgr0 job0).job.status = Status.cancelled ∧
    (startDownload env mgr0 job0).job.status ≠ Status.failed ∧
    ∀ p, (startDownload env mgr0 job0).job.filePath = some p →
      (startDownload env mgr0 job0).fs.present p = false := by
  obtain ⟨h1, h2⟩ := startDownload_cancel_spec env mgr0 job0 hab hts
  refine ⟨h1, ?_, h2⟩
  rw [h1]
  intro hc
  cases hc

/-- C5 witness: a concrete run aborted mid-transfer ends cancelled with
the partial file removed. -/
theorem c5_amended_witness :
    (startDownload { exEnv with abortTime := AbortTime.duringTransfer } exMgr exJob).job.status =
      Status.cancelled ∧
    (startDownload { exEnv with abortTime := AbortTime.duringTransfer } exMgr exJob).job.status ≠
      Status.failed ∧
    ∀ p, (startDownload { exEnv with abortTime := AbortTime.duringTransfer } exMgr
        exJob).job.filePath = some p →
      (startDownload { exEnv with abortTime := AbortTime.duringTransfer } exMgr
        exJob).fs.present p = false :=
  c5_amended { exEnv with abortTime := AbortTime.duringTransfer } exMgr exJob rfl (by decide)

/-- C2 counterexample: createJob kicks off startDownload on the shared,
mutable job object before returning it, and startDownload synchronously
sets status to downloading prior to its first await; the job value handed
back to the caller therefore has status downloading, not pending. -/
theorem c2_counterexample :
    ∃ res, createJob exEnv exMgr0 "j1" "https://civarchive.com/models/123" {} =
        Except.ok res ∧
      res.returnedJob.status = Status.downloading ∧
      res.returnedJob.status ≠ Status.pending :=
  ⟨_, rfl, rfl, by decide⟩

/-- C2 (amended): for a URL some resolver recognises and a fresh id,
createJob stores and persists an initial job with status pending before
any download work, but the job value returned to the caller is that
initial job already mutated by startDownload's synchronous prefix: status
downloading and updatedAt refreshed. -/
theorem c2_amended (env : Env) (mgr : Mgr) (freshId url : String) (opts : CreateJobOptions)
    (hsrc : (detectSource url).isSome = true)
    (hfresh : mgr.jobs.any (fun kv => kv.1 == freshId) = false) :
    ∃ res, createJob env mgr freshId url opts = Except.ok res ∧
      res.initialJob.id = freshId ∧ res.initialJob.url = url ∧
      res.initialJob.status = Status.pending ∧
      res.run.events.head? = some (Event.persist (storeValues mgr.jobs ++ [res.initialJob])) ∧
      res.returnedJob = { res.initialJob with status := Status.downloading, updatedAt := env.now } := by
  cases hd : detectSource url with
  | none => rw [hd] at hsrc; cases hsrc
  | some source =>
    unfold createJob
    rw [hd]
    dsimp only
    refine ⟨_, rfl, rfl, rfl, rfl, ?_, ?_⟩
    · rw [setEntry_eq_append mgr.jobs freshId _ hfresh]
      simp [storeValues]
    · apply (phaseStart_spec env _ _).1
      exact mgr

/-- C2 witness: the amended theorem at a concrete fresh manager. -/
theorem c2_amended_witness :
    ∃ res, createJob exEnv exMgr0 "j1" "https://civarchive.com/models/123" {} =
        Except.ok res ∧
      res.initialJob.id = "j1" ∧ res.initialJob.url = "https://civarchive.com/models/123" ∧
      res.initialJob.status = Status.pending ∧
      res.run.events.head? = some (Event.persist (storeValues exMgr0.jobs ++ [res.initialJob])) ∧
      res.returnedJob = { res.initialJob with status := Status.downloading, updatedAt := exEnv.now } :=
  c2_amended exEnv exMgr0 "j1" "https://civarchive.com/models/123" {} (by decide) (by decide)

/-- C3 counterexample: a job created with outputDir override "/custom"
resolves metadata carrying a model type and base model, and the override
is ignored — the source tests the override branch only after overwriting
job.modelType/job.baseModel with the effective (metadata-filled) values,
so the branch condition is almost never true. The final outputDir is the
type/base-model layout, not the override joined with the model name. -/
theorem c3_counterexample :
    (startDownload exEnv exMgr exJobC3).job.outputDir = some "/models/loras/qwen/M" ∧
    (startDownload exEnv exMgr exJobC3).job.outputDir ≠
      some (joinPath (exEnv.resolvePath "/custom") (sanitizeModelName exMeta.modelName)) :=
  ⟨by decide, by decide⟩

/-- C3 (amended): on a fresh resolution the output directory is
computeOutputDir of the entry job and the metadata; the explicit override
joined with the sanitized model name is used only when the override is
present AND the effective model type is empty AND no effective base model
exists (which resolved metadata virtually always supplies); in every
other case the type-directory / base-model-directory / model-name layout
under modelDir is used, ignoring the override. -/
theorem c3_amended (env : Env) (mgr0 : Mgr) (job0 : Job) (m : SourceMetadata)
    (file : SourceFile)
    (hnr : isRetryOf job0 = false) (hres : env.resolve = Except.ok m)
    (hf : m.files.head? = some file)
    (hsel : truthyS (selectDownloadUrl job0.downloadUrl file) = true) :
    (startDownload env mgr0 job0).job.outputDir =
      some (computeOutputDir env.resolvePath env.modelDir job0 m).2.2 ∧
    ((truthyS job0.outputDir &&
        !(truthyS (some (if truthyS job0.modelType then job0.modelType.getD "" else m.modelType))) &&
        !(truthyS (if truthyS job0.baseModel then job0.baseModel else m.baseModel))) = true →
      (computeOutputDir env.resolvePath env.modelDir job0 m).2.2 =
        joinPath (env.resolvePath (job0.outputDir.getD "")) (sanitizeModelName m.modelName)) ∧
    ((truthyS job0.outputDir &&
        !(truthyS (some (if truthyS job0.modelType then job0.modelType.getD "" else m.modelType))) &&
        !(truthyS (if truthyS job0.baseModel then job0.baseModel else m.baseModel))) = false →
      (computeOutputDir env.resolvePath env.modelDir job0 m).2.2 =
        joinPath (joinPath (joinPath env.modelDir
            ((TYPE_DIR_MAP (if truthyS job0.modelType then job0.modelType.getD "" else m.modelType)).getD "other"))
            (match BASE_MODEL_DIR_MAP ((if truthyS job0.baseModel then job0.baseModel else m.baseModel).getD "") with
             | some d => d
             | none =>
               match (if truthyS job0.baseModel then job0.baseModel else m.baseModel) with
               | some b => slugify b
               | none => "unknown"))
          (sanitizeModelName m.modelName)) := by
  refine ⟨startDownload_fresh_outputDir env mgr0 job0 m file hnr hres hf hsel, ?_, ?_⟩
  · intro hc
    unfold computeOutputDir
    dsimp only
    rw [if_pos hc]
  · intro hc
    unfold computeOutputDir
    dsimp only
    rw [if_neg (by simp [hc])]

/-- C3 witness: the amended theorem on the concrete override run; there
the condition is false (metadata supplies type and base model), so the
layout path is used. -/
theorem c3_amended_witness :
    (startDownload exEnv exMgr exJobC3).job.outputDir =
      some (computeOutputDir exEnv.resolvePath exEnv.modelDir exJobC3 exMeta).2.2 ∧
    ((truthyS exJobC3.outputDir &&
        !(truthyS (some (if truthyS exJobC3.modelType then exJobC3.modelType.getD "" else exMeta.modelType))) &&
        !(truthyS (if truthyS exJobC3.baseModel then exJobC3.baseModel else exMeta.baseModel))) = true →
      (computeOutputDir exEnv.resolvePath exEnv.modelDir exJobC3 exMeta).2.2 =
        joinPath (exEnv.resolvePath (exJobC3.outputDir.getD ""))
          (sanitizeModelName exMeta.modelName)) ∧
    ((truthyS exJobC3.outputDir &&
        !(truthyS (some (if truthyS exJobC3.modelType then exJobC3.modelType.getD "" else exMeta.modelType))) &&
        !(truthyS (if truthyS exJobC3.baseModel then exJobC3.baseModel else exMeta.baseModel))) = false →
      (computeOutputDir exEnv.resolvePath exEnv.modelDir exJobC3 exMeta).2.2 =
        joinPath (joinPath (joinPath exEnv.modelDir
            ((TYPE_DIR_MAP (if truthyS exJobC3.modelType then exJobC3.modelType.getD "" else exMeta.modelType)).getD "other"))
            (match BASE_MODEL_DIR_MAP ((if truthyS exJobC3.baseModel then exJobC3.baseModel else exMeta.baseModel).getD "") with
             | some d => d
             | none =>
               match (if truthyS exJobC3.baseModel then exJobC3.baseModel else exMeta.baseModel) with
               | some b => slugify b
               | none => "unknown"))
          (sanitizeModelName exMeta.modelName)) :=
  c3_amended exEnv exMgr exJobC3 exMeta exFile (by decide) rfl rfl (by decide)

theorem updateJob_fst (mgr : Mgr) (now : Nat) (job : Job) :
    (updateJob mgr now job).1 = { job with updatedAt := now } := rfl

/-- retryJob on a stored failed/cancelled, non-active job: it re-enters
startDownload on the updated job, whose placement fields equal the stored
job's. -/
theorem retryJob_spec (env : Env) (mgr : Mgr) (id : String) (job : Job)
    (hjob : getEntry mgr.jobs id = some job)
    (hst : job.status = Status.failed ∨ job.status = Status.cancelled)
    (hact : getEntry mgr.active id = none) :
    ∃ j2, retryJob env mgr id =
        some { startDownload env (updateJob mgr env.now j2).2.1 (updateJob mgr env.now j2).1 with
               events := (updateJob mgr env.now j2).2.2 ++
                 (startDownload env (updateJob mgr env.now j2).2.1
                   (updateJob mgr env.now j2).1).events } ∧
      j2.downloadUrl = job.downloadUrl ∧ j2.filePath = job.filePath ∧
      j2.outputDir = job.outputDir ∧ j2.modelId = job.modelId ∧ j2.id = job.id ∧
      j2.status = Status.pending := by
  unfold retryJob
  rw [hjob]
  dsimp only
  rw [if_neg (by rcases hst with h | h <;> simp [h]), if_neg (by simp [hact])]
  refine ⟨_, rfl, ?_, ?_, ?_, ?_, ?_, ?_⟩ <;> (split <;> rfl)

/-- C4: retrying a failed or cancelled, non-active job whose downloadUrl,
filePath and modelId are populated re-enters the download on the fast
path: the final job keeps exactly the stored downloadUrl, filePath and
outputDir, every HTTP request of the retry run goes to the stored
downloadUrl, and every snapshot a listener observes during the retry run
carries exactly the stored placement fields; moreover in any run each
observed placement field is either the value at run entry or the final
value, so each is assigned at most once per resolution. -/
theorem c4_retry_fast_path (env : Env) (mgr : Mgr) (id : String) (job : Job)
    (hjob : getEntry mgr.jobs id = some job)
    (hst : job.status = Status.failed ∨ job.status = Status.cancelled)
    (hact : getEntry mgr.active id = none)
    (hpop : isRetryOf job = true) :
    ∃ r, retryJob env mgr id = some r ∧
      r.job.downloadUrl = job.downloadUrl ∧ r.job.filePath = job.filePath ∧
      r.job.outputDir = job.outputDir ∧
      (∀ u hs, Event.requestEv u hs ∈ r.events → u = job.downloadUrl.getD "") ∧
      (∀ s ∈ observedSnapshots r.events,
        s.downloadUrl = job.downloadUrl ∧ s.filePath = job.filePath ∧
        s.outputDir = job.outputDir) ∧
      (∀ env2 mgr2 job2, ∀ s ∈ observedSnapshots (startDownload env2 mgr2 job2).events,
        (s.downloadUrl = job2.downloadUrl ∨
          s.downloadUrl = (startDownload env2 mgr2 job2).job.downloadUrl) ∧
        (s.filePath = job2.filePath ∨
          s.filePath = (startDownload env2 mgr2 job2).job.filePath) ∧
        (s.outputDir = job2.outputDir ∨
          s.outputDir = (startDownload env2 mgr2 job2).job.outputDir)) := by
  obtain ⟨j2, hret, hdu, hfp, hod, hmid, hid2, hstp⟩ := retryJob_spec env mgr id job hjob hst hact
  have hr2 : isRetryOf (updateJob mgr env.now j2).1 = true := by
    rw [updateJob_fst]
    unfold isRetryOf at hpop ⊢
    show (truthyS j2.downloadUrl && truthyS j2.filePath && truthyN j2.modelId) = true
    rw [hdu, hfp, hmid]
    exact hpop
  obtain ⟨hF, hReq, hObs⟩ := startDownload_retry_spec env (updateJob mgr env.now j2).2.1
    (updateJob mgr env.now j2).1 hr2
  refine ⟨_, hret, hF.1.trans hdu, hF.2.1.trans hfp, hF.2.2.trans hod, ?_, ?_, ?_⟩
  · intro u hs hmem
    have hmem2 : Event.requestEv u hs ∈ (updateJob mgr env.now j2).2.2 ++
        (startDownload env (updateJob mgr env.now j2).2.1
          (updateJob mgr env.now j2).1).events := hmem
    rcases List.mem_append.mp hmem2 with h | h
    · exact absurd h (requestEv_not_mem_updateJob _ _ _ _ _)
    · have hgd : j2.downloadUrl.getD "" = job.downloadUrl.getD "" := by rw [hdu]
      exact (hReq u hs h).trans hgd
  · intro s hs2
    have hs3 : s ∈ observedSnapshots ((updateJob mgr env.now j2).2.2 ++
        (startDownload env (updateJob mgr env.now j2).2.1
          (updateJob mgr env.now j2).1).events) := hs2
    rw [observedSnapshots_append] at hs3
    rcases List.mem_append.mp hs3 with h | h
    · have := mem_observed_updateJob h
      subst this
      exact ⟨hdu, hfp, hod⟩
    · obtain ⟨h1, h2, h3⟩ := hObs s h
      exact ⟨h1.trans hdu, h2.trans hfp, h3.trans hod⟩
  · intro env2 mgr2 job2 s hs3
    obtain ⟨h1, h2, h3, _⟩ := (startDownload_trace_spec env2 mgr2 job2).2 s hs3
    exact ⟨h1, h2, h3⟩

/-- C4 witness: a concrete populated failed job retried on the fast
path. -/
theorem c4_retry_fast_path_witness :
    ∃ r, retryJob exEnv exRetryMgr "j1" = some r ∧
      r.job.downloadUrl = exRetryJob.downloadUrl ∧ r.job.filePath = exRetryJob.filePath ∧
      r.job.outputDir = exRetryJob.outputDir ∧
      (∀ u hs, Event.requestEv u hs ∈ r.events → u = exRetryJob.downloadUrl.getD "") ∧
      (∀ s ∈ observedSnapshots r.events,
        s.downloadUrl = exRetryJob.downloadUrl ∧ s.filePath = exRetryJob.filePath ∧
        s.outputDir = exRetryJob.outputDir) ∧
      (∀ env2 mgr2 job2, ∀ s ∈ observedSnapshots (startDownload env2 mgr2 job2).events,
        (s.downloadUrl = job2.downloadUrl ∨
          s.downloadUrl = (startDownload env2 mgr2 job2).job.downloadUrl) ∧
        (s.filePath = job2.filePath ∨
          s.filePath = (startDownload env2 mgr2 job2).job.filePath) ∧
        (s.outputDir = job2.outputDir ∨
          s.outputDir = (startDownload env2 mgr2 job2).job.outputDir)) :=
  c4_retry_fast_path exEnv exRetryMgr "j1" exRetryJob (by decide) (Or.inl rfl) rfl (by decide)

end MM
